import Mathlib

/-!
# Verification of the Chonker5 character-matrix engine

A shallow embedding of the core of `src/chonker5.rs`: the rasterizer that
turns extracted text segments into per-character `PreciseTextObject`s, the
cell-size calibrator, the region merger, the matrix builder
(`process_pdf_page`), and the selection/clipboard/drag model of
`MatrixSelection` / `MatrixGrid`.

Real-valued (`f32`) quantities are modelled as rationals (`ℚ`); `usize`
values as `Nat` with saturating subtraction matching Rust's
`saturating_sub`; the `as usize` cast of a non-negative rounded float as
`Int.toNat` (negative values clamp to `0`, as the Rust cast saturates).
External PDFium calls are modelled at their interface: a page is a page
height plus a list of text segments, each a bounding box and a character
list, exactly the data the Rust code reads off the segment iterator.
-/

namespace Chonker5

/-- Structure `PDFBBox` from chonker5.rs: a real-valued page-point rectangle. -/
structure PDFBBox where
  x0 : ℚ
  y0 : ℚ
  x1 : ℚ
  y1 : ℚ
deriving DecidableEq

/-- Structure `PreciseTextObject` from chonker5.rs: one character (as the string field
`text`) plus its page-point box and font size. -/
structure PreciseTextObject where
  text : List Char
  bbox : PDFBBox
  font_size : ℚ
deriving DecidableEq

/-- Default object used only to state closed, concrete theorems. -/
def defaultPTO : PreciseTextObject :=
  { text := [], bbox := ⟨0, 0, 0, 0⟩, font_size := 0 }

/-- Structure `CharBBox` from chonker5.rs: an integer grid-cell rectangle. -/
structure CharBBox where
  x : Nat
  y : Nat
  width : Nat
  height : Nat
deriving DecidableEq

/-- Method `CharBBox::contains` from chonker5.rs. -/
def CharBBox.contains (b : CharBBox) (x y : Nat) : Bool :=
  decide (b.x ≤ x) && decide (x < b.x + b.width) &&
  decide (b.y ≤ y) && decide (y < b.y + b.height)

/-- Method `CharBBox::area` from chonker5.rs. -/
def CharBBox.area (b : CharBBox) : Nat :=
  b.width * b.height

/-- Structure `TextRegion` from chonker5.rs. -/
structure TextRegion where
  bbox : CharBBox
  confidence : ℚ
  text_content : List Char
  region_id : Nat
deriving DecidableEq

/-- Structure `CharacterMatrix` from chonker5.rs. -/
structure CharacterMatrix where
  width : Nat
  height : Nat
  matrix : List (List Char)
  text_regions : List TextRegion
  original_text : List (List Char)
  char_width : ℚ
  char_height : ℚ
deriving DecidableEq

/-! ## The extraction interface

PDFium (external) hands the code, per page, a page height and a list of
text segments; each segment is a bounds rectangle `{left, right, top,
bottom}` and a text string. -/

/-- The bounds of one PDFium text segment, as read by the Rust code
(`bounds.left()`, `bounds.right()`, `bounds.top()`, `bounds.bottom()`). -/
structure SegmentBounds where
  left : ℚ
  right : ℚ
  top : ℚ
  bottom : ℚ
deriving DecidableEq

/-- One PDFium text segment: bounds plus its text. -/
structure TextSegment where
  bounds : SegmentBounds
  text : List Char
deriving DecidableEq

/-- Rust `char::is_whitespace` restricted to the ASCII whitespace the
segments of this program contain. -/
def rustIsWhitespace (c : Char) : Bool :=
  c = ' ' || c = '\t' || c = '\n' || c = '\r'

/-- The `!text.trim().is_empty()` guard of both extraction loops. -/
def trimNonEmpty (text : List Char) : Bool :=
  text.any (fun c => !rustIsWhitespace c)

/-- The `avg_char_width` computation shared by both extraction paths:
`if char_count > 0.0 { segment_width / char_count } else { 7.2 }`. -/
def avgCharWidth (segmentWidth : ℚ) (charCount : Nat) : ℚ :=
  if 0 < charCount then segmentWidth / (charCount : ℚ) else 72 / 10

/-- The per-character cursor advance: half the average width for a space,
the full average width otherwise. -/
def charAdvance (avg : ℚ) (c : Char) : ℚ :=
  if c = ' ' then avg * (1 / 2) else avg

/-- The inner character walk shared by both extraction paths, advancing the
`current_x` cursor.  `yExtent` is what the path adds to `y_from_top` to get
`y1`: the single-page path passes `font_size`, the all-pages path passes
`top - bottom`. -/
def rasterWalk (yFromTop fontSize yExtent avg : ℚ) :
    ℚ → List Char → List PreciseTextObject
  | _, [] => []
  | currentX, c :: cs =>
    let w := charAdvance avg c
    { text := [c],
      bbox := { x0 := currentX, y0 := yFromTop,
                x1 := currentX + w, y1 := yFromTop + yExtent },
      font_size := fontSize } :: rasterWalk yFromTop fontSize yExtent avg (currentX + w) cs

/-- One segment of `CharacterMatrixEngine::extract_text_objects_for_page`
(chonker5.rs lines 743-781). -/
def rasterSegmentForPage (pageHeight : ℚ) (seg : TextSegment) :
    List PreciseTextObject :=
  if trimNonEmpty seg.text then
    let segmentWidth := seg.bounds.right - seg.bounds.left
    let avg := avgCharWidth segmentWidth seg.text.length
    let fontSize := (seg.bounds.top - seg.bounds.bottom) * (8 / 10)
    let yFromTop := pageHeight - seg.bounds.top
    rasterWalk yFromTop fontSize fontSize avg seg.bounds.left seg.text
  else []

/-- One segment of
`CharacterMatrixEngine::extract_text_objects_with_precise_coords`
(chonker5.rs lines 805-843): identical except that `y1` is
`y_from_top + (bounds.top - bounds.bottom)`. -/
def rasterSegmentPrecise (pageHeight : ℚ) (seg : TextSegment) :
    List PreciseTextObject :=
  if trimNonEmpty seg.text then
    let segmentWidth := seg.bounds.right - seg.bounds.left
    let avg := avgCharWidth segmentWidth seg.text.length
    let fontSize := (seg.bounds.top - seg.bounds.bottom) * (8 / 10)
    let yFromTop := pageHeight - seg.bounds.top
    rasterWalk yFromTop fontSize (seg.bounds.top - seg.bounds.bottom) avg
      seg.bounds.left seg.text
  else []

/-- Function `CharacterMatrixEngine::extract_text_objects_for_page`, given the data
PDFium supplies for the (in-range) requested page. -/
def extract_text_objects_for_page (pageHeight : ℚ)
    (segments : List TextSegment) : List PreciseTextObject :=
  segments.flatMap (rasterSegmentForPage pageHeight)

/-- Function `CharacterMatrixEngine::extract_text_objects_with_precise_coords`,
given the per-page data PDFium supplies for the whole document. -/
def extract_text_objects_with_precise_coords
    (pages : List (ℚ × List TextSegment)) : List PreciseTextObject :=
  pages.flatMap (fun page => page.2.flatMap (rasterSegmentPrecise page.1))

/-- Total advance of a character list: the distance the cursor moves. -/
def advanceSum (avg : ℚ) : List Char → ℚ
  | [] => 0
  | c :: cs => charAdvance avg c + advanceSum avg cs

/-! ## Calibrator -/

/-- The pure tail of `CharacterMatrixEngine::find_optimal_character_dimensions`
(chonker5.rs lines 695-713), given the font sizes PDFium reports for the
first page's characters and the engine's current `char_width`/`char_height`
(6.0 and 12.0 for an engine built by `new`/`new_optimized`).  The Rust
in-place `sort_by` on a vector of floats is the unique sorted permutation,
here `List.insertionSort`. -/
def find_optimal_character_dimensions (engineCharWidth engineCharHeight : ℚ)
    (fontSizes : List ℚ) : ℚ × ℚ :=
  let positive := fontSizes.filter (fun s => 0 < s)
  if positive.isEmpty then (engineCharWidth, engineCharHeight)
  else
    let sorted := positive.insertionSort (· ≤ ·)
    let modal := sorted.getD (positive.length / 2) 0
    (max (modal * (6 / 10)) 4, max (modal * (12 / 10)) 8)

/-- Rust `f32::round` (round half away from zero) on a rational. -/
def roundQ (q : ℚ) : Int :=
  if 0 ≤ q then Int.floor (q + 1 / 2) else Int.ceil (q - 1 / 2)

/-- The occurrence-count map `font_size_counts`, an association list keyed
by rounded font size, in first-occurrence order. -/
def bumpCount (k : Int) : List (Int × Nat) → List (Int × Nat)
  | [] => [(k, 1)]
  | e :: rest => if e.1 = k then (e.1, e.2 + 1) :: rest else e :: bumpCount k rest

/-- All rounded font sizes of the object list, folded into the count map. -/
def countRounded (objs : List PreciseTextObject) : List (Int × Nat) :=
  objs.foldl (fun acc o => bumpCount (roundQ o.font_size) acc) []

/-- Rust `max_by_key` over the count map: keeps the entry with the largest
count, later entries winning ties (the map's iteration order itself is
unspecified in Rust's `HashMap`). -/
def maxByCountAux : (Int × Nat) → List (Int × Nat) → (Int × Nat)
  | best, [] => best
  | best, e :: rest => maxByCountAux (if best.2 ≤ e.2 then e else best) rest

/-- The rounded font size `calculate_optimal_matrix_size` picks as modal,
as the integer key (`unwrap_or(12.0)` covers the empty map). -/
def modalKeyInt (objs : List PreciseTextObject) : Int :=
  match countRounded objs with
  | [] => 12
  | e :: rest => (maxByCountAux e rest).1

/-- The modal rounded font size as the `f32` value the code uses
(`*size as f32`). -/
def modalKey (objs : List PreciseTextObject) : ℚ :=
  (modalKeyInt objs : ℚ)

/-- How many objects of the list round to the font-size key `k` (the
specification-side count the `HashMap` materialises). -/
def countKey (k : Int) (objs : List PreciseTextObject) : Nat :=
  (objs.filter (fun o => roundQ o.font_size = k)).length

/-- First-occurrence lookup in the count map, `0` for an absent key. -/
def lookupC : List (Int × Nat) → Int → Nat
  | [], _ => 0
  | e :: l, x => if e.1 = x then e.2 else lookupC l x

/-- Fold computing `min_by` of a projection over the object list, with the
`unwrap_or` default for the empty list. -/
def minProj (f : PreciseTextObject → ℚ) (dflt : ℚ) :
    List PreciseTextObject → ℚ
  | [] => dflt
  | o :: os => (os.map f).foldl min (f o)

/-- Fold computing `max_by` of a projection over the object list, with the
`unwrap_or` default for the empty list. -/
def maxProj (f : PreciseTextObject → ℚ) (dflt : ℚ) :
    List PreciseTextObject → ℚ
  | [] => dflt
  | o :: os => (os.map f).foldl max (f o)

/-- Rust `(q.ceil() as usize)` for the rationals this code produces. -/
def ceilToUsize (q : ℚ) : Nat := (Int.ceil q).toNat

/-- Function `CharacterMatrixEngine::calculate_optimal_matrix_size`
(chonker5.rs lines 849-900). -/
def calculate_optimal_matrix_size (text_objects : List PreciseTextObject) :
    Nat × Nat × ℚ × ℚ :=
  if text_objects.isEmpty then (50, 50, 6, 12)
  else
    let modal := modalKey text_objects
    let cw := modal * (6 / 10)
    let ch := modal * (12 / 10)
    let min_x := minProj (fun t => t.bbox.x0) 0 text_objects
    let max_x := maxProj (fun t => t.bbox.x1) 100 text_objects
    let min_y := minProj (fun t => t.bbox.y0) 0 text_objects
    let max_y := maxProj (fun t => t.bbox.y1) 100 text_objects
    let matrix_width := max (ceilToUsize ((max_x - min_x) / cw)) 10
    let matrix_height := max (ceilToUsize ((max_y - min_y) / ch)) 10
    (matrix_width, matrix_height, cw, ch)

/-! ## Region merger -/

/-- A region's right edge, `bbox.x + bbox.width`. -/
def regionEnd (r : TextRegion) : Nat := r.bbox.x + r.bbox.width

/-- The merge-candidate test of `merge_adjacent_regions` (chonker5.rs lines
929-935): same row, same height, horizontal gap at most 2. -/
def adjacentB (current other : TextRegion) : Bool :=
  decide (other.bbox.y = current.bbox.y) &&
  decide (other.bbox.height = current.bbox.height) &&
  (decide (((other.bbox.x : Int) - (regionEnd current : Int)).natAbs ≤ 2) ||
   decide (((current.bbox.x : Int) - (regionEnd other : Int)).natAbs ≤ 2))

/-- Absorbing one region into the accumulating `current` (chonker5.rs lines
936-940): extend the horizontal span, concatenate the contents. -/
def absorb (current other : TextRegion) : TextRegion :=
  let newX := min current.bbox.x other.bbox.x
  let newEnd := max (regionEnd current) (regionEnd other)
  { current with
      bbox := { current.bbox with x := newX, width := newEnd - newX },
      text_content := current.text_content ++ other.text_content }

/-- One pass of the inner `for j` loop: scan the still-unprocessed regions
in index order, absorbing every one adjacent to the running `current`; the
flag records whether anything merged. -/
def scanOnce (current : TextRegion) :
    List TextRegion → TextRegion × List TextRegion × Bool
  | [] => (current, [], false)
  | r :: rs =>
    if adjacentB current r then
      let t := scanOnce (absorb current r) rs
      (t.1, t.2.1, true)
    else
      let t := scanOnce current rs
      (t.1, r :: t.2.1, t.2.2)

/-- The `while merged_any` loop: repeat `scanOnce` until a pass merges
nothing.  Each merging pass removes at least one region, so fuel
`rs.length + 1` always suffices. -/
def mergeLoop : Nat → TextRegion → List TextRegion → TextRegion × List TextRegion
  | 0, c, rs => (c, rs)
  | Nat.succ fuel, c, rs =>
    let t := scanOnce c rs
    if t.2.2 then mergeLoop fuel t.1 t.2.1 else (t.1, t.2.1)

/-- The outer `for i` loop: seed on the first unprocessed region, run the
inner loop to fixpoint, emit the merged region, continue on the remainder.
Each step consumes the seed, so fuel `regions.length` suffices. -/
def mergeOuter : Nat → List TextRegion → List TextRegion
  | 0, _ => []
  | _, [] => []
  | Nat.succ fuel, r :: rs =>
    let t := mergeLoop (rs.length + 1) r rs
    t.1 :: mergeOuter fuel t.2

/-- Function `CharacterMatrixEngine::merge_adjacent_regions`
(chonker5.rs lines 902-952). -/
def merge_adjacent_regions (regions : List TextRegion) : List TextRegion :=
  mergeOuter regions.length regions

/-! ## Matrix builder -/

/-- Rust `(q.round() as usize)`: round half away from zero, saturate
negatives at zero. -/
def roundToUsize (q : ℚ) : Nat := (roundQ q).toNat

/-- The guarded write `matrix[char_y][char_x] = ch` (`List.set` is a
no-op out of range, like the bounds guard around the write). -/
def setCell (m : List (List Char)) (y x : Nat) (c : Char) : List (List Char) :=
  m.set y ((m.getD y []).set x c)

/-- One iteration of the placement loop of `process_pdf_page`
(chonker5.rs lines 990-1011): compute the rounded grid cell, and when it is
in range write the character and append a fresh 1-by-1 region. -/
def placeOne (min_x min_y cw ch : ℚ) (mw mh : Nat)
    (st : List (List Char) × List TextRegion) (obj : PreciseTextObject) :
    List (List Char) × List TextRegion :=
  let char_x := roundToUsize ((obj.bbox.x0 - min_x) / cw)
  let char_y := roundToUsize ((obj.bbox.y0 - min_y) / ch)
  if char_y < mh ∧ char_x < mw then
    match obj.text with
    | [] => st
    | c :: _ =>
      (setCell st.1 char_y char_x c,
       st.2 ++ [{ bbox := { x := char_x, y := char_y, width := 1, height := 1 },
                  confidence := 1,
                  text_content := [c],
                  region_id := st.2.length }])
  else st

/-- The pure tail of `CharacterMatrixEngine::process_pdf_page`
(chonker5.rs lines 969-1025), from the extracted object list onward: the
"no text" error, matrix sizing, per-object placement, and region merging. -/
def process_text_objects (objs : List PreciseTextObject) :
    Except String CharacterMatrix :=
  if objs.isEmpty then .error "No text found in PDF"
  else
    let dims := calculate_optimal_matrix_size objs
    let mw := dims.1
    let mh := dims.2.1
    let cw := dims.2.2.1
    let ch := dims.2.2.2
    let min_x := minProj (fun t => t.bbox.x0) 0 objs
    let min_y := minProj (fun t => t.bbox.y0) 0 objs
    let st := objs.foldl (placeOne min_x min_y cw ch mw mh)
      (List.replicate mh (List.replicate mw ' '), ([] : List TextRegion))
    .ok { width := mw, height := mh, matrix := st.1,
          text_regions := merge_adjacent_regions st.2,
          original_text := objs.map (fun o => o.text),
          char_width := cw, char_height := ch }

/-! ## MatrixSelection -/

/-- Structure `MatrixSelection` from chonker5.rs; the Rust field `end` is a Lean
keyword and is rendered `stop`. -/
structure MatrixSelection where
  start : Option (Nat × Nat)
  stop : Option (Nat × Nat)
deriving DecidableEq

/-- Method `MatrixSelection::is_selected`. -/
def MatrixSelection.is_selected (s : MatrixSelection) (row col : Nat) : Bool :=
  match s.start, s.stop with
  | some st, some en =>
    decide (min st.1 en.1 ≤ row) && decide (row ≤ max st.1 en.1) &&
    decide (min st.2 en.2 ≤ col) && decide (col ≤ max st.2 en.2)
  | _, _ => false

/-- The inner column loop shared by `get_selected_text`, the copy/cut
handlers and the drag pickup: the characters of one row from `min_col` to
`row_max_col`, each guarded by `col < row_data.len()` (`get?` returning
`none` models a failed guard). -/
def selectedRowChars (rowData : List Char) (minCol maxCol : Nat) : List Char :=
  let rowMaxCol := min maxCol (rowData.length - 1)
  (List.range' minCol (rowMaxCol + 1 - minCol)).filterMap rowData.get?

/-- The row loop of `get_selected_text`: each in-range row's selected
characters, a newline after every row but the last. -/
def buildSelectedText (matrix : List (List Char)) (minRow maxRow minCol maxCol : Nat) :
    List Char :=
  (List.range' minRow (maxRow + 1 - minRow)).flatMap (fun row =>
    match matrix.get? row with
    | none => []
    | some rowData =>
      selectedRowChars rowData minCol maxCol ++
      (if row < maxRow then ['\n'] else []))

/-- Method `MatrixSelection::get_selected_text` (chonker5.rs lines 81-113). -/
def MatrixSelection.get_selected_text (s : MatrixSelection)
    (matrix : List (List Char)) : String :=
  match s.start, s.stop with
  | some st, some en =>
    let minRow := min (min st.1 en.1) (matrix.length - 1)
    let maxRow := min (max st.1 en.1) (matrix.length - 1)
    let minCol := min st.2 en.2
    let maxCol := max st.2 en.2
    if 100000 < (maxRow - minRow + 1) * (maxCol - minCol + 1) then
      "[Selection too large]"
    else
      String.mk (buildSelectedText matrix minRow maxRow minCol maxCol)
  | _, _ => ""

/-! ## MatrixGrid -/

/-- The state of `MatrixGrid` that the editing operations touch (the
rendering-only fields `char_size`, `last_blink`, `cursor_visible` are
omitted). -/
structure MatrixGrid where
  matrix : List (List Char)
  selection : MatrixSelection
  cursor_pos : Option (Nat × Nat)
  clipboard : List (List Char)
  modified : Bool
  is_dragging_selection : Bool
  drag_start_pos : Option (Nat × Nat)
  drag_content : List (List Char)
deriving DecidableEq

/-- Rust `str::split('\n')`, keeping every (possibly empty) piece. -/
def splitOnNewline : List Char → List (List Char)
  | [] => [[]]
  | c :: rest =>
    if c = '\n' then [] :: splitOnNewline rest
    else
      match splitOnNewline rest with
      | [] => [[c]]
      | l :: ls => (c :: l) :: ls

/-- Strip one trailing carriage return, as Rust `str::lines` does per line. -/
def stripCR (l : List Char) : List Char :=
  if l.getLast? = some '\r' then l.dropLast else l

/-- Rust `str::lines`: split on newline, drop the final piece when it is
empty (a trailing newline), strip one trailing carriage return per line. -/
def rustLines (s : List Char) : List (List Char) :=
  let parts := splitOnNewline s
  (if parts.getLast? = some [] then parts.dropLast else parts).map stripCR

/-- The per-line gutter strip of `MatrixGrid::new` (chonker5.rs lines
132-141): keep only what follows the line's first space, or the whole line
when it has none.  (`line.find(' ')` returns a byte index, but a space is
one byte, so slicing at `pos + 1` is exactly "the characters after the
first space".) -/
def gutterStrip (line : List Char) : List Char :=
  match line.findIdx? (fun c => c = ' ') with
  | some pos => line.drop (pos + 1)
  | none => line

/-- Method `MatrixGrid::new` (chonker5.rs lines 131-156). -/
def MatrixGrid.new (text : List Char) : MatrixGrid :=
  { matrix := (rustLines text).map gutterStrip,
    selection := { start := none, stop := none },
    cursor_pos := none,
    clipboard := [],
    modified := false,
    is_dragging_selection := false,
    drag_start_pos := none,
    drag_content := [] }

/-- The row loop shared by the copy/cut handlers and the drag pickup
(`if row < matrix.len()` modelled by `get?`): the rectangle's rows, each
cut down by `selectedRowChars`. -/
def copyRect (matrix : List (List Char)) (minRow maxRow minCol maxCol : Nat) :
    List (List Char) :=
  (List.range' minRow (maxRow + 1 - minRow)).filterMap (fun row =>
    (matrix.get? row).map (fun rowData => selectedRowChars rowData minCol maxCol))

/-- Blanking one row of a rectangle: positions `min_col ..= row_max_col`
become spaces (each write guarded by `col < row_data.len()`, automatic
here since `row_max_col ≤ len - 1`). -/
def blankRowAux (minCol rowMaxCol i : Nat) : List Char → List Char
  | [] => []
  | c :: cs =>
    (if minCol ≤ i ∧ i ≤ rowMaxCol then ' ' else c) ::
      blankRowAux minCol rowMaxCol (i + 1) cs

/-- Blanking one row, clamping the upper column to the row length as the
source's `row_max_col` does. -/
def blankRow (rowData : List Char) (minCol maxCol : Nat) : List Char :=
  blankRowAux minCol (min maxCol (rowData.length - 1)) 0 rowData

/-- Blanking the rows `min_row ..= max_row` of the matrix (the clearing
loops of the cut handler and the drag pickup). -/
def blankRectAux (minRow maxRow minCol maxCol r : Nat) :
    List (List Char) → List (List Char)
  | [] => []
  | rd :: rds =>
    (if minRow ≤ r ∧ r ≤ maxRow then blankRow rd minCol maxCol else rd) ::
      blankRectAux minRow maxRow minCol maxCol (r + 1) rds

/-- Blank the whole selected rectangle. -/
def blankRect (matrix : List (List Char)) (minRow maxRow minCol maxCol : Nat) :
    List (List Char) :=
  blankRectAux minRow maxRow minCol maxCol 0 matrix

/-- Writing one content row into a grid row starting at `col`, each cell
guarded by `target_col < row.len()` (`List.set` out of range is a no-op). -/
def writeRow : List Char → Nat → List Char → List Char
  | rowData, _, [] => rowData
  | rowData, col, ch :: rest => writeRow (rowData.set col ch) (col + 1) rest

/-- Writing a rectangular payload into the matrix anchored at `(r, c)`,
row-major, each row guarded by `target_row < matrix.len()` (the paste
handler's and the drag-release handler's loops). -/
def writeRect : List (List Char) → Nat × Nat → List (List Char) → List (List Char)
  | matrix, _, [] => matrix
  | matrix, anchor, crow :: rest =>
    let r := anchor.1
    let c := anchor.2
    let m2 := if r < matrix.length
      then matrix.set r (writeRow (matrix.getD r []) c crow)
      else matrix
    writeRect m2 (r + 1, c) rest

/-- The copy handler (Ctrl+C, chonker5.rs lines 436-476), without the
side copy into the system clipboard: when a selection is active and its
row-clamped rectangle has at most 100,000 cells, snapshot it into the
rectangular clipboard; the grid itself is untouched. -/
def MatrixGrid.copyOp (g : MatrixGrid) : MatrixGrid :=
  match g.selection.start, g.selection.stop with
  | some st, some en =>
    let minRow := min (min st.1 en.1) (g.matrix.length - 1)
    let maxRow := min (max st.1 en.1) (g.matrix.length - 1)
    let minCol := min st.2 en.2
    let maxCol := max st.2 en.2
    if (maxRow - minRow + 1) * (maxCol - minCol + 1) ≤ 100000 then
      { g with clipboard := copyRect g.matrix minRow maxRow minCol maxCol }
    else g
  | _, _ => g

/-- The paste handler's anchor choice (chonker5.rs lines 534-540): the
cursor position if set, else the selection start if set, else `(0,0)`. -/
def pasteAnchor (g : MatrixGrid) : Nat × Nat :=
  match g.cursor_pos with
  | some p => p
  | none =>
    match g.selection.start with
    | some st => st
    | none => (0, 0)

/-- The paste handler (Ctrl+V, chonker5.rs lines 531-561): write the
clipboard at the anchor, clipped per-cell; clear the selection and set the
dirty flag.  The cursor is never touched. -/
def MatrixGrid.pasteOp (g : MatrixGrid) : MatrixGrid :=
  if g.clipboard.isEmpty then g
  else
    { g with matrix := writeRect g.matrix (pasteAnchor g) g.clipboard,
             selection := { start := none, stop := none },
             modified := true }

/-- The drag-start handler (chonker5.rs lines 199-259) at grid cell
`(row, col)`: starting on an active selection picks the rectangle up into
`drag_content` and blanks it in the grid; anywhere else begins a new
selection at the cell. -/
def MatrixGrid.dragStartOp (g : MatrixGrid) (row col : Nat) : MatrixGrid :=
  if g.selection.is_selected row col ∧ g.selection.start.isSome ∧
      g.selection.stop.isSome then
    match g.selection.start, g.selection.stop with
    | some st, some en =>
      let minRow := min (min st.1 en.1) (g.matrix.length - 1)
      let maxRow := min (max st.1 en.1) (g.matrix.length - 1)
      let minCol := min st.2 en.2
      let maxCol := max st.2 en.2
      { g with is_dragging_selection := true,
               drag_start_pos := some (row, col),
               drag_content := copyRect g.matrix minRow maxRow minCol maxCol,
               matrix := blankRect g.matrix minRow maxRow minCol maxCol,
               modified := true }
    | _, _ => g
  else
    { g with selection := { start := some (row, col), stop := some (row, col) },
             cursor_pos := none,
             is_dragging_selection := false }

/-- The drag-release handler (chonker5.rs lines 279-310) at grid cell
`(row, col)`: when a selection drag is in flight, drop the payload at the
cell, clear the selection, set the dirty flag and reset the drag state. -/
def MatrixGrid.dragReleaseOp (g : MatrixGrid) (row col : Nat) : MatrixGrid :=
  if g.is_dragging_selection then
    { g with matrix := writeRect g.matrix (row, col) g.drag_content,
             modified := true,
             selection := { start := none, stop := none },
             is_dragging_selection := false,
             drag_start_pos := none,
             drag_content := [] }
  else g

/-- Read one grid cell, a space out of range (only used to state theorems). -/
def cellAt (matrix : List (List Char)) (row col : Nat) : Char :=
  (matrix.getD row []).getD col ' '

/-- A concrete 4-by-4 grid with an active 2-by-2 selection and a cursor,
used only to state closed, concrete theorems. -/
def gridW : MatrixGrid :=
  { matrix := [['a', 'b', 'c', 'd'], ['e', 'f', 'g', 'h'],
               ['i', 'j', 'k', 'l'], ['m', 'n', 'o', 'p']],
    selection := { start := some (0, 0), stop := some (1, 1) },
    cursor_pos := some (2, 2),
    clipboard := [],
    modified := false,
    is_dragging_selection := false,
    drag_start_pos := none,
    drag_content := [] }

/-- The same grid with no cursor and an active one-row selection, used
only to state closed, concrete drag theorems. -/
def gridD : MatrixGrid :=
  { matrix := [['a', 'b', 'c', 'd'], ['e', 'f', 'g', 'h'],
               ['i', 'j', 'k', 'l'], ['m', 'n', 'o', 'p']],
    selection := { start := some (0, 0), stop := some (0, 1) },
    cursor_pos := none,
    clipboard := [],
    modified := false,
    is_dragging_selection := false,
    drag_start_pos := none,
    drag_content := [] }

/-! ## Rasterizer lemmas -/

/-- The `k`-th object the character walk emits: the cursor has advanced by
the total advance of the first `k` characters, and the box is one advance
wide and `yExtent` tall. -/
theorem rasterWalk_get? (yft fs yext avg : ℚ) :
    ∀ (cs : List Char) (k : Nat) (x0 : ℚ) (hk : k < cs.length),
    (rasterWalk yft fs yext avg x0 cs).get? k =
      some { text := [cs.get ⟨k, hk⟩],
             bbox := { x0 := x0 + advanceSum avg (cs.take k), y0 := yft,
                       x1 := x0 + advanceSum avg (cs.take k) +
                             charAdvance avg (cs.get ⟨k, hk⟩),
                       y1 := yft + yext },
             font_size := fs }
  | [], k, x0, hk => absurd hk (by simp)
  | c :: cs, 0, x0, hk => by
      simp [rasterWalk, advanceSum]
  | c :: cs, k + 1, x0, hk => by
      have ih := rasterWalk_get? yft fs yext avg cs k (x0 + charAdvance avg c)
        (by simpa using hk)
      simp only [rasterWalk]
      rw [List.get?_cons_succ, ih]
      simp [advanceSum, add_assoc]

/-- A non-blank text has at least one character. -/
theorem trimNonEmpty_length_pos {t : List Char} (h : trimNonEmpty t = true) :
    0 < t.length := by
  cases t with
  | nil => simp [trimNonEmpty] at h
  | cons c cs => simp

/-- C1, counterexample to the claim as stated: in the all-pages path
(`extract_text_objects_with_precise_coords`), the `"HELLO"` segment with
bounds `{left 0, right 35, top 100, bottom 90}` on an 800-point page
produces a first box with `y1 = 710 = y_from_top + (top - bottom)`, not
`y_from_top + font_size = 708`: the vertical span is the full unscaled
segment height, not `font_size`. -/
theorem C1_counterexample :
    let objs := extract_text_objects_with_precise_coords
      [(800, [{ bounds := { left := 0, right := 35, top := 100, bottom := 90 },
                text := ['H', 'E', 'L', 'L', 'O'] }])]
    (objs.getD 0 defaultPTO).bbox.y0 = 700 ∧
    (objs.getD 0 defaultPTO).font_size = 8 ∧
    (objs.getD 0 defaultPTO).bbox.y1 = 710 ∧
    (710 : ℚ) ≠ 700 + 8 := by
  norm_num [extract_text_objects_with_precise_coords, rasterSegmentPrecise,
    trimNonEmpty, rustIsWhitespace, rasterWalk, avgCharWidth, charAdvance,
    defaultPTO, (by decide : ('H' : Char) ≠ ' '), (by decide : ('E' : Char) ≠ ' '),
    (by decide : ('L' : Char) ≠ ' '), (by decide : ('O' : Char) ≠ ' '),
    (by decide : ('H' : Char) ≠ '\t'), (by decide : ('H' : Char) ≠ '\n'),
    (by decide : ('H' : Char) ≠ '\r')]

/-- C1 (amended): in both extraction paths each processed segment is walked
left to right with a cursor starting at the segment's left edge; the `k`-th
character's box spans `[current_x, current_x + w]` horizontally with
`w = 0.5 * avg_char_width` for a space and `avg_char_width` otherwise, and
starts at `y_from_top = page_height - top` vertically with
`font_size = (top - bottom) * 0.8`; the vertical extent is `font_size` in
the single-page path but the full `top - bottom` in the all-pages path. -/
theorem C1_per_character (pageHeight : ℚ) (seg : TextSegment)
    (hseg : trimNonEmpty seg.text = true) (k : Nat) (hk : k < seg.text.length) :
    let avg := avgCharWidth (seg.bounds.right - seg.bounds.left) seg.text.length
    let fontSize := (seg.bounds.top - seg.bounds.bottom) * (8 / 10)
    let yFromTop := pageHeight - seg.bounds.top
    let xk := seg.bounds.left + advanceSum avg (seg.text.take k)
    let w := charAdvance avg (seg.text.get ⟨k, hk⟩)
    (w = if seg.text.get ⟨k, hk⟩ = ' ' then avg * (1 / 2) else avg) ∧
    (rasterSegmentForPage pageHeight seg).get? k =
      some { text := [seg.text.get ⟨k, hk⟩],
             bbox := { x0 := xk, y0 := yFromTop, x1 := xk + w,
                       y1 := yFromTop + fontSize },
             font_size := fontSize } ∧
    (rasterSegmentPrecise pageHeight seg).get? k =
      some { text := [seg.text.get ⟨k, hk⟩],
             bbox := { x0 := xk, y0 := yFromTop, x1 := xk + w,
                       y1 := yFromTop + (seg.bounds.top - seg.bounds.bottom) },
             font_size := fontSize } := by
  refine ⟨rfl, ?_, ?_⟩
  · rw [rasterSegmentForPage, if_pos hseg]
    exact rasterWalk_get? _ _ _ _ seg.text k seg.bounds.left hk
  · rw [rasterSegmentPrecise, if_pos hseg]
    exact rasterWalk_get? _ _ _ _ seg.text k seg.bounds.left hk

/-- C1, witness: the amended per-character theorem evaluated on the
`"HELLO"` segment at `k = 1`, the spec's concrete scenario: the `'E'` box
is `{x0 7, y0 700, x1 14}` with `y1 = 708` in the single-page path and
`y1 = 710` in the all-pages path. -/
theorem C1_witness :
    (rasterSegmentForPage 800
        { bounds := { left := 0, right := 35, top := 100, bottom := 90 },
          text := ['H', 'E', 'L', 'L', 'O'] }).get? 1 =
      some { text := ['E'], bbox := { x0 := 7, y0 := 700, x1 := 14, y1 := 708 },
             font_size := 8 } ∧
    (rasterSegmentPrecise 800
        { bounds := { left := 0, right := 35, top := 100, bottom := 90 },
          text := ['H', 'E', 'L', 'L', 'O'] }).get? 1 =
      some { text := ['E'], bbox := { x0 := 7, y0 := 700, x1 := 14, y1 := 710 },
             font_size := 8 } := by
  have h := C1_per_character 800
    { bounds := { left := 0, right := 35, top := 100, bottom := 90 },
      text := ['H', 'E', 'L', 'L', 'O'] } (by decide) 1 (by decide)
  obtain ⟨-, h1, h2⟩ := h
  constructor
  · rw [h1]
    norm_num [avgCharWidth, charAdvance, advanceSum, List.take, List.get,
      Option.some.injEq, PreciseTextObject.mk.injEq, PDFBBox.mk.injEq,
      (by decide : ('H' : Char) ≠ ' '), (by decide : ('E' : Char) ≠ ' ')]
  · rw [h2]
    norm_num [avgCharWidth, charAdvance, advanceSum, List.take, List.get,
      Option.some.injEq, PreciseTextObject.mk.injEq, PDFBBox.mk.injEq,
      (by decide : ('H' : Char) ≠ ' '), (by decide : ('E' : Char) ≠ ' ')]

/-- C2, counterexample to the claim as stated: a zero-width segment
(`left = right = 5`) holding `['A', 'B']` does not fall back to the
average character width `7.2`; the fallback guard tests the character
count, not the width, so the segment gets `avg_char_width = 0 / 2 = 0`
and its first box is zero-width. -/
theorem C2_counterexample :
    let objs := extract_text_objects_for_page 100
      [{ bounds := { left := 5, right := 5, top := 10, bottom := 0 },
         text := ['A', 'B'] }]
    avgCharWidth (5 - 5) 2 = 0 ∧
    (objs.getD 0 defaultPTO).bbox.x0 = 5 ∧
    (objs.getD 0 defaultPTO).bbox.x1 = 5 ∧
    ((0 : ℚ) ≠ 72 / 10) := by
  norm_num [extract_text_objects_for_page, rasterSegmentForPage,
    trimNonEmpty, rustIsWhitespace, rasterWalk, avgCharWidth, charAdvance,
    defaultPTO, (by decide : ('A' : Char) ≠ ' '), (by decide : ('B' : Char) ≠ ' '),
    (by decide : ('A' : Char) ≠ '\t'), (by decide : ('A' : Char) ≠ '\n'),
    (by decide : ('A' : Char) ≠ '\r')]

/-- C2 (amended): the `7.2` fallback is selected by a zero character
count, not by zero width — so a processed (non-blank) segment always uses
`segment_width / character_count`, which is `0` for a zero-width segment;
the fallback `7.2` itself only arises for a character count of zero, which
no processed segment has. -/
theorem C2_avg_char_width (seg : TextSegment)
    (hseg : trimNonEmpty seg.text = true) :
    avgCharWidth (seg.bounds.right - seg.bounds.left) seg.text.length =
      (seg.bounds.right - seg.bounds.left) / (seg.text.length : ℚ) ∧
    (seg.bounds.right = seg.bounds.left →
      avgCharWidth (seg.bounds.right - seg.bounds.left) seg.text.length = 0) ∧
    (∀ w : ℚ, avgCharWidth w 0 = 72 / 10) := by
  have hpos := trimNonEmpty_length_pos hseg
  refine ⟨by rw [avgCharWidth, if_pos hpos], ?_, fun w => by simp [avgCharWidth]⟩
  intro hw
  rw [avgCharWidth, if_pos hpos, hw, sub_self, zero_div]

/-- C2, witness: the amended characterisation evaluated on the zero-width
two-character segment: the used average width is `0`, not `7.2`. -/
theorem C2_witness :
    avgCharWidth ((5 : ℚ) - 5) 2 = (5 - 5) / (2 : ℚ) ∧
    ((5 : ℚ) = 5 → avgCharWidth ((5 : ℚ) - 5) 2 = 0) ∧
    (∀ w : ℚ, avgCharWidth w 0 = 72 / 10) := by
  have h := C2_avg_char_width
    { bounds := { left := 5, right := 5, top := 10, bottom := 0 },
      text := ['A', 'B'] } (by decide)
  exact h

/-! ## Error contract of the matrix builder -/

/-- C9: given that the PDF loads and the page index is in range --- i.e.
given whatever object list extraction yields --- `process_pdf_page` fails
if and only if that list is empty, and then with the result-value error
`"No text found in PDF"`; for any non-empty list it returns a matrix. -/
theorem C9_no_text_error (objs : List PreciseTextObject) :
    (objs = [] → process_text_objects objs = .error "No text found in PDF") ∧
    (objs ≠ [] → ∃ m : CharacterMatrix, process_text_objects objs = .ok m) := by
  constructor
  · intro h; subst h; rfl
  · intro h
    rw [process_text_objects, if_neg (by simpa using h)]
    exact ⟨_, rfl⟩

/-- C9, witness: the empty extraction result produces exactly the
"no text" error value, and a one-object extraction result produces a
matrix. -/
theorem C9_witness :
    process_text_objects [] = .error "No text found in PDF" ∧
    (∃ m : CharacterMatrix, process_text_objects [defaultPTO] = .ok m) :=
  ⟨(C9_no_text_error []).1 rfl, (C9_no_text_error [defaultPTO]).2 (by simp)⟩

/-! ## Gutter stripping in MatrixGrid::new -/

/-- C10: each line of the text handed to `MatrixGrid::new` is stored with
everything up to and including its first space dropped; a line with no
space is stored in full. -/
theorem C10_gutter_strip (text : List Char) (k : Nat)
    (hk : k < (rustLines text).length) :
    let line := (rustLines text).get ⟨k, hk⟩
    (MatrixGrid.new text).matrix.get? k = some (gutterStrip line) ∧
    ((∃ p : Nat, ∃ hp : p < line.length, line.get ⟨p, hp⟩ = ' ' ∧
        (∀ q (hq : q < line.length), q < p → line.get ⟨q, hq⟩ ≠ ' ') ∧
        gutterStrip line = line.drop (p + 1)) ∨
     ((∀ c ∈ line, c ≠ ' ') ∧ gutterStrip line = line)) := by
  intro line
  constructor
  · show ((rustLines text).map gutterStrip).get? k = some (gutterStrip line)
    rw [List.get?_eq_getElem?, List.getElem?_map, List.getElem?_eq_getElem hk]
    rfl
  · rcases h : line.findIdx? (fun c => c = ' ') with - | p
    · refine Or.inr ⟨?_, by simp [gutterStrip, h]⟩
      intro c hc
      have := List.findIdx?_eq_none_iff.mp h c hc
      simpa using this
    · have h' := List.findIdx?_eq_some_iff_getElem.mp h
      obtain ⟨hp, hsp, hbefore⟩ := h'
      refine Or.inl ⟨p, hp, by simpa using hsp, ?_, ?_⟩
      · intro q hq hqp
        have := hbefore q hqp
        simpa using this
      · simp [gutterStrip, h]

/-! ## Selection size guard -/

/-- C6, counterexample to the claim as stated: the guard is evaluated
after the row endpoints are clamped to the last matrix row, so a selection
whose rectangle spans 200,001 cells but hangs below a one-row matrix is
clamped to a single cell and returns the cell's text, not the sentinel. -/
theorem C6_counterexample :
    (200000 - 0 + 1) * (0 - 0 + 1) > 100000 ∧
    MatrixSelection.get_selected_text
      { start := some (0, 0), stop := some (200000, 0) } [['a']] = "a" := by
  exact ⟨by decide, by decide⟩

/-- C6 (amended): whenever the rectangle obtained after clamping the two
row endpoints to the last matrix row spans more than 100,000 cells,
`get_selected_text` returns exactly the sentinel `"[Selection too large]"`
instead of materialising the text; the selection value itself is
untouched (`get_selected_text` borrows it immutably) and `is_selected`
still answers from the same endpoints. -/
theorem C6_selection_guard (matrix : List (List Char)) (st en : Nat × Nat)
    (h : 100000 <
      (min (max st.1 en.1) (matrix.length - 1) -
        min (min st.1 en.1) (matrix.length - 1) + 1) *
      (max st.2 en.2 - min st.2 en.2 + 1)) :
    MatrixSelection.get_selected_text { start := some st, stop := some en }
      matrix = "[Selection too large]" ∧
    ∀ r c, MatrixSelection.is_selected { start := some st, stop := some en } r c =
      (decide (min st.1 en.1 ≤ r) && decide (r ≤ max st.1 en.1) &&
       decide (min st.2 en.2 ≤ c) && decide (c ≤ max st.2 en.2)) := by
  refine ⟨?_, fun r c => rfl⟩
  simp only [MatrixSelection.get_selected_text]
  rw [if_pos h]

/-- C6, witness: a 200,001-cell selection lying inside a one-row matrix's
row bounds triggers the sentinel. -/
theorem C6_witness :
    MatrixSelection.get_selected_text
      { start := some (0, 0), stop := some (0, 200000) } [['a']] =
      "[Selection too large]" ∧
    ∀ r c, MatrixSelection.is_selected
        { start := some (0, 0), stop := some (0, 200000) } r c =
      (decide (min 0 0 ≤ r) && decide (r ≤ max 0 0) &&
       decide (min 0 200000 ≤ c) && decide (c ≤ max 0 200000)) :=
  C6_selection_guard [['a']] (0, 0) (0, 200000) (by decide)

/-! ## Calibrator lemmas -/

/-- Bumping key `k` increments exactly the looked-up count of `k`. -/
theorem lookupC_bumpCount (k x : Int) :
    ∀ l : List (Int × Nat),
    lookupC (bumpCount k l) x = lookupC l x + (if x = k then 1 else 0)
  | [] => by
    by_cases hxk : x = k
    · subst hxk; simp [bumpCount, lookupC]
    · have hkx : ¬k = x := fun h => hxk h.symm
      simp [bumpCount, lookupC, hxk, hkx]
  | e :: l => by
    by_cases hek : e.1 = k
    · by_cases hex : e.1 = x
      · have hxk : x = k := hex ▸ hek
        simp [bumpCount, lookupC, hek, hex, hxk]
      · have hxk : ¬x = k := fun h => hex (hek.trans h.symm)
        have hkx : ¬k = x := fun h => hxk h.symm
        simp [bumpCount, lookupC, hek, hex, hxk, hkx]
    · by_cases hex : e.1 = x
      · have hxk : ¬x = k := fun h => hek (hex.trans h)
        simp [bumpCount, lookupC, hek, hex, hxk]
      · simp only [bumpCount, if_neg hek, lookupC, if_neg hex]
        exact lookupC_bumpCount k x l

/-- The folded count map looks up to the specification-side count. -/
theorem lookupC_countRounded (x : Int) :
    ∀ objs : List PreciseTextObject,
    lookupC (countRounded objs) x = countKey x objs := by
  intro objs
  induction objs using List.reverseRecOn with
  | nil => simp [countRounded, countKey, lookupC, List.find?]
  | append_singleton objs o ih =>
    have h1 : countRounded (objs ++ [o]) =
        bumpCount (roundQ o.font_size) (countRounded objs) := by
      simp [countRounded, List.foldl_append]
    rw [h1, lookupC_bumpCount, ih]
    by_cases hx : x = roundQ o.font_size <;>
      simp [countKey, List.filter_append, hx, eq_comm]

/-- The keys after a bump: unchanged when `k` is present, `k` appended
otherwise. -/
theorem bumpCount_keys (k : Int) : ∀ l : List (Int × Nat),
    (bumpCount k l).map Prod.fst =
      if k ∈ l.map Prod.fst then l.map Prod.fst else l.map Prod.fst ++ [k]
  | [] => by simp [bumpCount]
  | e :: l => by
    by_cases hek : e.1 = k
    · rw [bumpCount, if_pos hek,
        if_pos (show k ∈ (e :: l).map Prod.fst by simp [← hek])]
      simp
    · rw [bumpCount, if_neg hek]
      simp only [List.map_cons, bumpCount_keys k l]
      by_cases hmem : k ∈ l.map Prod.fst
      · rw [if_pos hmem, if_pos (List.mem_cons.mpr (Or.inr hmem))]
      · rw [if_neg hmem, if_neg ?_, List.cons_append]
        intro hc
        rcases List.mem_cons.mp hc with hc | hc
        · exact hek hc.symm
        · exact hmem hc

/-- Bumping preserves distinctness of the keys. -/
theorem nodup_keys_bumpCount (k : Int) (l : List (Int × Nat))
    (h : (l.map Prod.fst).Nodup) : ((bumpCount k l).map Prod.fst).Nodup := by
  rw [bumpCount_keys]
  by_cases hmem : k ∈ l.map Prod.fst
  · rwa [if_pos hmem]
  · rw [if_neg hmem]
    exact h.append (List.nodup_singleton k)
      (fun a ha hb => hmem ((List.mem_singleton.mp hb) ▸ ha))

/-- The folded count map has distinct keys. -/
theorem nodup_keys_countRounded (objs : List PreciseTextObject) :
    ((countRounded objs).map Prod.fst).Nodup := by
  induction objs using List.reverseRecOn with
  | nil => simp [countRounded]
  | append_singleton objs o ih =>
    have h1 : countRounded (objs ++ [o]) =
        bumpCount (roundQ o.font_size) (countRounded objs) := by
      simp [countRounded, List.foldl_append]
    rw [h1]
    exact nodup_keys_bumpCount _ _ ih

/-- With distinct keys, every entry of the map is its own lookup. -/
theorem lookupC_mem : ∀ (l : List (Int × Nat)), (l.map Prod.fst).Nodup →
    ∀ e ∈ l, lookupC l e.1 = e.2
  | [], _, e, he => absurd he (List.not_mem_nil e)
  | f :: l, h, e, he => by
    simp only [List.map_cons, List.nodup_cons] at h
    rcases List.mem_cons.mp he with rfl | he'
    · simp [lookupC]
    · have hne : ¬f.1 = e.1 := by
        intro hc
        exact h.1 (hc ▸ List.mem_map_of_mem Prod.fst he')
      rw [lookupC, if_neg hne]
      exact lookupC_mem l h.2 e he'

/-- Lemma: `maxByCountAux` returns one of its candidates. -/
theorem maxByCountAux_mem : ∀ (l : List (Int × Nat)) (best : Int × Nat),
    maxByCountAux best l ∈ best :: l
  | [], best => by simp [maxByCountAux]
  | e :: l, best => by
    rw [maxByCountAux]
    rcases List.mem_cons.mp
        (maxByCountAux_mem l (if best.2 ≤ e.2 then e else best)) with hc | hc
    · rw [hc]
      by_cases hbe : best.2 ≤ e.2 <;> simp [hbe]
    · exact List.mem_cons.mpr (Or.inr (List.mem_cons.mpr (Or.inr hc)))

/-- Lemma: `maxByCountAux` dominates every candidate's count. -/
theorem maxByCountAux_le : ∀ (l : List (Int × Nat)) (best : Int × Nat),
    ∀ e ∈ best :: l, e.2 ≤ (maxByCountAux best l).2
  | [], best, e, he => by
    rcases List.mem_cons.mp he with rfl | hc
    · simp [maxByCountAux]
    · exact absurd hc (List.not_mem_nil e)
  | f :: l, best, e, he => by
    rw [maxByCountAux]
    have hb' : best.2 ≤ (if best.2 ≤ f.2 then f else best).2 := by
      by_cases h : best.2 ≤ f.2 <;> simp [h]
    have hf' : f.2 ≤ (if best.2 ≤ f.2 then f else best).2 := by
      by_cases h : best.2 ≤ f.2
      · simp [h]
      · simp only [if_neg h]
        omega
    rcases List.mem_cons.mp he with rfl | hc
    · exact le_trans hb'
        (maxByCountAux_le l _ _ (List.mem_cons_self _ _))
    · rcases List.mem_cons.mp hc with rfl | hc'
      · exact le_trans hf'
          (maxByCountAux_le l _ _ (List.mem_cons_self _ _))
      · exact maxByCountAux_le l _ e (List.mem_cons.mpr (Or.inr hc'))

/-- An absent key looks up to zero. -/
theorem lookupC_not_mem : ∀ (l : List (Int × Nat)) (k : Int),
    k ∉ l.map Prod.fst → lookupC l k = 0
  | [], _, _ => rfl
  | e :: l, k, h => by
    have h1 : ¬e.1 = k := fun hc => h (by simp [hc.symm])
    rw [lookupC, if_neg h1]
    exact lookupC_not_mem l k (fun hc => h (List.mem_cons.mpr (Or.inr hc)))

/-- The modal key has the maximal count over all rounded font sizes. -/
theorem countKey_le_modal (objs : List PreciseTextObject) (k : Int) :
    countKey k objs ≤ countKey (modalKeyInt objs) objs := by
  rcases hc : countRounded objs with - | ⟨e, rest⟩
  · have h0 : countKey k objs = 0 := by
      rw [← lookupC_countRounded, hc]; rfl
    simp [h0]
  · have hnodup := nodup_keys_countRounded objs
    rw [hc] at hnodup
    have hmaxmem : maxByCountAux e rest ∈ e :: rest := maxByCountAux_mem rest e
    have hmodal : modalKeyInt objs = (maxByCountAux e rest).1 := by
      rw [modalKeyInt, hc]
    have hmodalCount : countKey (modalKeyInt objs) objs =
        (maxByCountAux e rest).2 := by
      rw [← lookupC_countRounded, hmodal, hc]
      exact lookupC_mem _ hnodup _ hmaxmem
    rw [hmodalCount]
    by_cases hmem : k ∈ (countRounded objs).map Prod.fst
    · obtain ⟨f, hfmem, hfk⟩ := List.mem_map.mp hmem
      have hlook : countKey k objs = f.2 := by
        rw [← lookupC_countRounded, ← hfk, hc]
        exact lookupC_mem _ hnodup _ (hc ▸ hfmem)
      rw [hlook]
      exact maxByCountAux_le rest e f (hc ▸ hfmem)
    · have h0 : countKey k objs = 0 := by
        rw [← lookupC_countRounded]
        exact lookupC_not_mem _ _ hmem
      simp [h0]

/-- C3, counterexample to the claim as stated:
`calculate_optimal_matrix_size` does not clamp the cell size — with a
single text object whose font size is `1`, it returns
`char_width = 1 * 0.6 = 0.6`, not `max(1 * 0.6, 4.0) = 4.0`. -/
theorem C3_counterexample :
    (calculate_optimal_matrix_size
      [{ text := ['A'], bbox := ⟨0, 0, 10, 10⟩, font_size := 1 }]).2.2.1 = 3 / 5 ∧
    ((3 : ℚ) / 5 ≠ max ((1 : ℚ) * (6 / 10)) 4) := by
  constructor
  · norm_num [calculate_optimal_matrix_size, modalKey, modalKeyInt, countRounded,
      bumpCount, maxByCountAux, roundQ]
  · rw [max_eq_right (by norm_num)]
    norm_num

/-- C3 (amended): `find_optimal_character_dimensions` (here with the
engine defaults 6.0 and 12.0) takes the median of the positive observed
font sizes --- the element at index `len / 2` of the sorted positive
list --- and clamps with `max(· * 0.6, 4.0)` and `max(· * 1.2, 8.0)`,
defaulting to `6.0 × 12.0` when no positive size exists;
`calculate_optimal_matrix_size` takes a mode by count of the rounded font
sizes as the representative size but applies `* 0.6` and `* 1.2`
WITHOUT the `max` clamps. -/
theorem C3_cell_size (sizes : List ℚ) (objs : List PreciseTextObject)
    (hobjs : objs ≠ []) :
    ((sizes.filter (fun s => 0 < s)) = [] →
      find_optimal_character_dimensions 6 12 sizes = (6, 12)) ∧
    ((sizes.filter (fun s => 0 < s)) ≠ [] →
      ((sizes.filter (fun s => 0 < s)).insertionSort (· ≤ ·)).Sorted (· ≤ ·) ∧
      ((sizes.filter (fun s => 0 < s)).insertionSort (· ≤ ·)).Perm
        (sizes.filter (fun s => 0 < s)) ∧
      find_optimal_character_dimensions 6 12 sizes =
        (max (((sizes.filter (fun s => 0 < s)).insertionSort (· ≤ ·)).getD
            ((sizes.filter (fun s => 0 < s)).length / 2) 0 * (6 / 10)) 4,
         max (((sizes.filter (fun s => 0 < s)).insertionSort (· ≤ ·)).getD
            ((sizes.filter (fun s => 0 < s)).length / 2) 0 * (12 / 10)) 8)) ∧
    (calculate_optimal_matrix_size objs).2.2.1 = modalKey objs * (6 / 10) ∧
    (calculate_optimal_matrix_size objs).2.2.2 = modalKey objs * (12 / 10) ∧
    ∀ k : Int, countKey k objs ≤ countKey (modalKeyInt objs) objs := by
  refine ⟨?_, ?_, ?_, ?_, fun k => countKey_le_modal objs k⟩
  · intro h
    rw [find_optimal_character_dimensions]
    simp [h]
  · intro h
    refine ⟨List.sorted_insertionSort _ _, List.perm_insertionSort _ _, ?_⟩
    rw [find_optimal_character_dimensions]
    rw [if_neg (by simpa using h)]
  · rw [calculate_optimal_matrix_size, if_neg (by simpa using hobjs)]
  · rw [calculate_optimal_matrix_size, if_neg (by simpa using hobjs)]

/-- C3, witness: the amended characterisation evaluated concretely: the
positive sizes of `[10, 12, 12, 14, 3, 0, -1]` sort to
`[3, 10, 12, 12, 14]` whose median (index `5 / 2 = 2`) is `12`, giving the
clamped `(7.2, 14.4)`; and one object of font size `1` gives the
unclamped cell `0.6 × 1.2`. -/
theorem C3_witness :
    find_optimal_character_dimensions 6 12 [10, 12, 12, 14, 3, 0, -1] =
      (36 / 5, 72 / 5) ∧
    (calculate_optimal_matrix_size
      [{ text := ['A'], bbox := ⟨0, 0, 10, 10⟩, font_size := 1 }]).2.2.1 =
      modalKey [{ text := ['A'], bbox := ⟨0, 0, 10, 10⟩, font_size := 1 }] *
        (6 / 10) ∧
    countKey 5 [{ text := ['A'], bbox := ⟨0, 0, 10, 10⟩, font_size := 1 }] ≤
      countKey
        (modalKeyInt [{ text := ['A'], bbox := ⟨0, 0, 10, 10⟩, font_size := 1 }])
        [{ text := ['A'], bbox := ⟨0, 0, 10, 10⟩, font_size := 1 }] := by
  obtain ⟨h1, h2, h3, h4, h5⟩ := C3_cell_size [10, 12, 12, 14, 3, 0, -1]
    [{ text := ['A'], bbox := ⟨0, 0, 10, 10⟩, font_size := 1 }] (by simp)
  refine ⟨?_, h3, h5 5⟩
  have hpos : ([10, 12, 12, 14, 3, 0, -1] : List ℚ).filter (fun s => 0 < s) ≠
      [] := by
    intro hcontra
    norm_num at hcontra
    exact List.cons_ne_nil _ _ hcontra
  obtain ⟨-, -, heq⟩ := h2 hpos
  rw [heq]
  norm_num [List.insertionSort, List.orderedInsert]

/-! ## Region-merger lemmas -/

/-- Same row and same height: the non-geometric part of the
merge-candidate test. -/
def sameRowH (m c : TextRegion) : Prop :=
  m.bbox.y = c.bbox.y ∧ m.bbox.height = c.bbox.height

/-- A region is covered by a list when its left edge and its right edge
are each attained by a member of the list on the same row with the same
height.  Every region the merger outputs is covered by the input list. -/
def coveredBy (c : TextRegion) (L : List TextRegion) : Prop :=
  (∃ m ∈ L, sameRowH m c ∧ m.bbox.x = c.bbox.x) ∧
  (∃ m ∈ L, sameRowH m c ∧ regionEnd m = regionEnd c)

theorem coveredBy_self {c : TextRegion} {L : List TextRegion} (h : c ∈ L) :
    coveredBy c L :=
  ⟨⟨c, h, ⟨rfl, rfl⟩, rfl⟩, ⟨c, h, ⟨rfl, rfl⟩, rfl⟩⟩

/-- Unfolding the Boolean merge-candidate test. -/
theorem adjacentB_eq_true_iff {c o : TextRegion} :
    adjacentB c o = true ↔
      o.bbox.y = c.bbox.y ∧ o.bbox.height = c.bbox.height ∧
      ((((o.bbox.x : Int) - (regionEnd c : Int)).natAbs ≤ 2) ∨
       (((c.bbox.x : Int) - (regionEnd o : Int)).natAbs ≤ 2)) := by
  simp [adjacentB, and_assoc]

theorem absorb_bbox_y (c o : TextRegion) : (absorb c o).bbox.y = c.bbox.y := rfl

theorem absorb_bbox_height (c o : TextRegion) :
    (absorb c o).bbox.height = c.bbox.height := rfl

theorem absorb_bbox_x (c o : TextRegion) :
    (absorb c o).bbox.x = min c.bbox.x o.bbox.x := rfl

theorem regionEnd_absorb (c o : TextRegion) :
    regionEnd (absorb c o) = max (regionEnd c) (regionEnd o) := by
  have h : min c.bbox.x o.bbox.x ≤ max (regionEnd c) (regionEnd o) :=
    le_trans (min_le_left _ _)
      (le_trans (Nat.le_add_right _ _) (le_max_left _ _))
  show min c.bbox.x o.bbox.x +
    (max (regionEnd c) (regionEnd o) - min c.bbox.x o.bbox.x) = _
  exact Nat.add_sub_cancel' h

/-- Absorbing a covered-by-`L` member keeps the result covered by `L`. -/
theorem coveredBy_absorb {c o : TextRegion} {L : List TextRegion}
    (hc : coveredBy c L) (ho : o ∈ L) (hadj : adjacentB c o = true) :
    coveredBy (absorb c o) L := by
  obtain ⟨hy, hh, -⟩ := adjacentB_eq_true_iff.mp hadj
  obtain ⟨⟨mx, hmx, hmxr, hmxx⟩, ⟨me, hme, hmer, hmee⟩⟩ := hc
  constructor
  · rcases le_total c.bbox.x o.bbox.x with hle | hle
    · exact ⟨mx, hmx, ⟨hmxr.1.trans (absorb_bbox_y c o).symm,
        hmxr.2.trans (absorb_bbox_height c o).symm⟩,
        by rw [hmxx, absorb_bbox_x, min_eq_left hle]⟩
    · exact ⟨o, ho, ⟨hy.trans (absorb_bbox_y c o).symm,
        hh.trans (absorb_bbox_height c o).symm⟩,
        by rw [absorb_bbox_x, min_eq_right hle]⟩
  · rcases le_total (regionEnd o) (regionEnd c) with hle | hle
    · exact ⟨me, hme, ⟨hmer.1.trans (absorb_bbox_y c o).symm,
        hmer.2.trans (absorb_bbox_height c o).symm⟩,
        by rw [hmee, regionEnd_absorb, max_eq_left hle]⟩
    · exact ⟨o, ho, ⟨hy.trans (absorb_bbox_y c o).symm,
        hh.trans (absorb_bbox_height c o).symm⟩,
        by rw [regionEnd_absorb, max_eq_right hle]⟩

/-- If nothing in the list is adjacent to `current`, one scan changes
nothing and reports no merge. -/
theorem scanOnce_of_not_adjacent {c : TextRegion} :
    ∀ {rs : List TextRegion}, (∀ r ∈ rs, adjacentB c r = false) →
    scanOnce c rs = (c, rs, false)
  | [], _ => rfl
  | r :: rs, h => by
    have hr : adjacentB c r = false := h r (List.mem_cons_self r rs)
    have ih := scanOnce_of_not_adjacent
      (fun r' hr' => h r' (List.mem_cons.mpr (Or.inr hr')))
    simp [scanOnce, hr, ih]

/-- A scan that reports no merge changed nothing, and nothing in the list
is adjacent to `current`. -/
theorem scanOnce_false : ∀ {c : TextRegion} {rs : List TextRegion}
    {c' : TextRegion} {rs' : List TextRegion},
    scanOnce c rs = (c', rs', false) →
    c' = c ∧ rs' = rs ∧ ∀ r ∈ rs, adjacentB c r = false
  | c, [], c', rs', h => by
    rw [scanOnce] at h
    injection h with h1 h2
    injection h2 with h3 h4
    exact ⟨h1.symm, h3.symm, by simp⟩
  | c, r :: rs, c', rs', h => by
    rcases hr : adjacentB c r with - | -
    · rw [scanOnce] at h
      simp only [hr, Bool.false_eq_true, if_false] at h
      rcases ht : scanOnce c rs with ⟨tc, trs, tb⟩
      rw [ht] at h
      injection h with h1 h2
      injection h2 with h3 h4
      subst h4
      obtain ⟨hc, hrs, hall⟩ := scanOnce_false ht
      refine ⟨h1 ▸ hc, ?_, ?_⟩
      · rw [← h3, hrs]
      · intro x hx
        rcases List.mem_cons.mp hx with rfl | hx'
        · exact hr
        · exact hall x hx'
    · rw [scanOnce] at h
      simp only [hr, if_true] at h
      injection h with h1 h2
      injection h2 with h3 h4
      exact absurd h4.symm (by simp)

/-- The kept part of a scan is a sublist of the input. -/
theorem scanOnce_sublist : ∀ (c : TextRegion) (rs : List TextRegion),
    List.Sublist (scanOnce c rs).2.1 rs
  | _, [] => List.Sublist.refl []
  | c, r :: rs => by
    rcases hr : adjacentB c r with - | -
    · simpa [scanOnce, hr] using (scanOnce_sublist c rs).cons₂ r
    · simpa [scanOnce, hr] using (scanOnce_sublist (absorb c r) rs).cons r

/-- A scan that merged something strictly shrank the list. -/
theorem scanOnce_true_length : ∀ {c : TextRegion} {rs : List TextRegion},
    (scanOnce c rs).2.2 = true → (scanOnce c rs).2.1.length < rs.length
  | c, [], h => by simp [scanOnce] at h
  | c, r :: rs, h => by
    rcases hr : adjacentB c r with - | -
    · rw [scanOnce] at h ⊢
      simp only [hr, Bool.false_eq_true, if_false] at h ⊢
      have := @scanOnce_true_length c rs h
      simpa using Nat.succ_lt_succ this
    · rw [scanOnce]
      simp only [hr, if_true]
      have := (scanOnce_sublist (absorb c r) rs).length_le
      simpa using Nat.lt_succ_of_le this

/-- One scan keeps the running region covered by any superset of the
scanned list. -/
theorem scanOnce_covered {L : List TextRegion} :
    ∀ {rs : List TextRegion} {c : TextRegion}, coveredBy c L →
    (∀ r ∈ rs, r ∈ L) → coveredBy (scanOnce c rs).1 L
  | [], c, hc, _ => hc
  | r :: rs, c, hc, hmem => by
    rcases hr : adjacentB c r with - | -
    · simp only [scanOnce, hr, Bool.false_eq_true, if_false]
      exact scanOnce_covered hc
        (fun r' hr' => hmem r' (List.mem_cons.mpr (Or.inr hr')))
    · simp only [scanOnce, hr, if_true]
      exact scanOnce_covered
        (coveredBy_absorb hc (hmem r (List.mem_cons_self r rs)) hr)
        (fun r' hr' => hmem r' (List.mem_cons.mpr (Or.inr hr')))

/-- With enough fuel, the inner while-loop ends with a region not adjacent
to anything left over, keeps a sublist, and stays covered. -/
theorem mergeLoop_spec {L : List TextRegion} :
    ∀ (fuel : Nat) (c : TextRegion) (rs : List TextRegion),
    rs.length < fuel → coveredBy c L → (∀ r ∈ rs, r ∈ L) →
    (∀ r ∈ (mergeLoop fuel c rs).2, adjacentB (mergeLoop fuel c rs).1 r = false) ∧
    List.Sublist (mergeLoop fuel c rs).2 rs ∧
    coveredBy (mergeLoop fuel c rs).1 L
  | 0, c, rs, hfuel, _, _ => absurd hfuel (Nat.not_lt_zero _)
  | Nat.succ fuel, c, rs, hfuel, hcov, hmem => by
    rcases hb : (scanOnce c rs).2.2 with - | -
    · rcases ht : scanOnce c rs with ⟨tc, trs, tb⟩
      rw [ht] at hb
      simp only at hb
      subst hb
      obtain ⟨hc, hrs, hall⟩ := scanOnce_false ht
      subst hc hrs
      rw [mergeLoop, ht]
      simp only [Bool.false_eq_true, if_false]
      exact ⟨hall, List.Sublist.refl _, hcov⟩
    · have hlen := scanOnce_true_length hb
      have hsub := scanOnce_sublist c rs
      have hcov' : coveredBy (scanOnce c rs).1 L := scanOnce_covered hcov hmem
      have hmem' : ∀ r ∈ (scanOnce c rs).2.1, r ∈ L :=
        fun r hr => hmem r (hsub.mem hr)
      have ih := mergeLoop_spec fuel (scanOnce c rs).1 (scanOnce c rs).2.1
        (Nat.lt_of_lt_of_le hlen (Nat.lt_succ_iff.mp hfuel)) hcov' hmem'
      rw [mergeLoop]
      rcases ht : scanOnce c rs with ⟨tc, trs, tb⟩
      rw [ht] at hb
      simp only at hb
      subst hb
      simp only [if_true]
      rw [ht] at ih
      exact ⟨ih.1, ih.2.1.trans (by simpa [ht] using hsub), ih.2.2⟩

/-- Every region the outer loop outputs is covered by any superset of its
input list. -/
theorem mergeOuter_covered {L : List TextRegion} :
    ∀ (fuel : Nat) (l : List TextRegion), (∀ r ∈ l, r ∈ L) →
    ∀ out ∈ mergeOuter fuel l, coveredBy out L
  | 0, l, _, out, hout => absurd hout (by rw [mergeOuter] at hout ⊢; simp)
  | Nat.succ fuel, [], _, out, hout => absurd hout (by simp [mergeOuter])
  | Nat.succ fuel, r :: rs, hmem, out, hout => by
    rw [mergeOuter] at hout
    have hspec := mergeLoop_spec (L := L) (rs.length + 1) r rs
      (Nat.lt_succ_self _)
      (coveredBy_self (hmem r (List.mem_cons_self r rs)))
      (fun r' hr' => hmem r' (List.mem_cons.mpr (Or.inr hr')))
    rcases List.mem_cons.mp hout with rfl | hout'
    · exact hspec.2.2
    · exact mergeOuter_covered fuel _
        (fun r' hr' => hmem r' (List.mem_cons.mpr (Or.inr (hspec.2.1.mem hr'))))
        out hout'

/-- A region covered by a list of regions none of which is adjacent to `a`
is itself not adjacent to `a`. -/
theorem not_adjacent_of_covered {a out : TextRegion} {L' : List TextRegion}
    (hall : ∀ m ∈ L', adjacentB a m = false) (hcov : coveredBy out L') :
    adjacentB a out = false := by
  rcases hb : adjacentB a out with - | -
  · rfl
  · exfalso
    obtain ⟨hy, hh, hd⟩ := adjacentB_eq_true_iff.mp hb
    obtain ⟨⟨mx, hmx, hmxr, hmxx⟩, ⟨me, hme, hmer, hmee⟩⟩ := hcov
    rcases hd with hd | hd
    · have : adjacentB a mx = true := by
        rw [adjacentB_eq_true_iff]
        exact ⟨hmxr.1.trans hy, hmxr.2.trans hh, Or.inl (by rwa [hmxx])⟩
      rw [hall mx hmx] at this
      exact absurd this (by simp)
    · have : adjacentB a me = true := by
        rw [adjacentB_eq_true_iff]
        exact ⟨hmer.1.trans hy, hmer.2.trans hh, Or.inr (by rwa [hmee])⟩
      rw [hall me hme] at this
      exact absurd this (by simp)

/-- The merger's output is pairwise non-adjacent. -/
theorem mergeOuter_pairwise :
    ∀ (fuel : Nat) (l : List TextRegion), l.length ≤ fuel →
    (mergeOuter fuel l).Pairwise (fun a b => adjacentB a b = false)
  | 0, l, _ => by rw [mergeOuter]; exact List.Pairwise.nil
  | Nat.succ fuel, [], _ => List.Pairwise.nil
  | Nat.succ fuel, r :: rs, hfuel => by
    rw [mergeOuter]
    have hspec := mergeLoop_spec (L := r :: rs) (rs.length + 1) r rs
      (Nat.lt_succ_self _) (coveredBy_self (List.mem_cons_self r rs))
      (fun r' hr' => List.mem_cons.mpr (Or.inr hr'))
    refine List.Pairwise.cons ?_ ?_
    · intro b hb
      exact not_adjacent_of_covered hspec.1
        (mergeOuter_covered fuel _ (fun x hx => hx) b hb)
    · exact mergeOuter_pairwise fuel _
        (le_trans hspec.2.1.length_le (Nat.succ_le_succ_iff.mp hfuel))

/-- A pairwise non-adjacent list is a fixed point of the merger's outer
loop. -/
theorem mergeOuter_of_pairwise :
    ∀ (fuel : Nat) (l : List TextRegion), l.length ≤ fuel →
    l.Pairwise (fun a b => adjacentB a b = false) → mergeOuter fuel l = l
  | 0, l, hfuel, _ => by
    rw [Nat.le_zero] at hfuel
    rw [mergeOuter, List.length_eq_zero.mp hfuel]
  | Nat.succ fuel, [], _, _ => rfl
  | Nat.succ fuel, r :: rs, hfuel, hpw => by
    rw [mergeOuter]
    obtain ⟨hhead, htail⟩ := List.pairwise_cons.mp hpw
    have hscan : scanOnce r rs = (r, rs, false) :=
      scanOnce_of_not_adjacent hhead
    have hloop : mergeLoop (rs.length + 1) r rs = (r, rs) := by
      rw [mergeLoop, hscan]
      simp
    rw [hloop]
    rw [mergeOuter_of_pairwise fuel rs (Nat.succ_le_succ_iff.mp hfuel) htail]

/-- C4: region merging is idempotent --- merging an already-merged list
returns exactly the same list of regions, in order, with identical
bounding boxes and text contents. -/
theorem C4_merge_idempotent (rs : List TextRegion) :
    merge_adjacent_regions (merge_adjacent_regions rs) =
      merge_adjacent_regions rs := by
  rw [merge_adjacent_regions, merge_adjacent_regions]
  exact mergeOuter_of_pairwise _ _ le_rfl (mergeOuter_pairwise _ _ le_rfl)

/-! ## Well-formedness of built matrices -/

/-- Merging preserves containment of every region in the grid bounds. -/
theorem merge_in_bounds {w h : Nat} (l : List TextRegion)
    (hl : ∀ r ∈ l, regionEnd r ≤ w ∧ r.bbox.y + r.bbox.height ≤ h) :
    ∀ out ∈ merge_adjacent_regions l,
      out.bbox.x + out.bbox.width ≤ w ∧ out.bbox.y + out.bbox.height ≤ h := by
  intro out hout
  rw [merge_adjacent_regions] at hout
  have hcov := mergeOuter_covered (L := l) l.length l (fun x hx => hx) out hout
  obtain ⟨-, ⟨me, hme, hmer, hmee⟩⟩ := hcov
  constructor
  · have h1 : regionEnd out ≤ w := hmee ▸ (hl me hme).1
    simpa [regionEnd] using h1
  · have h2 := (hl me hme).2
    rw [hmer.1, hmer.2] at h2
    exact h2

/-- One placement step preserves the matrix shape and the in-bounds
property of the accumulated regions. -/
theorem placeOne_preserves {min_x min_y cw ch : ℚ} {mw mh : Nat}
    {st : List (List Char) × List TextRegion} (obj : PreciseTextObject)
    (h1 : st.1.length = mh) (h2 : ∀ row ∈ st.1, row.length = mw)
    (h3 : ∀ r ∈ st.2, regionEnd r ≤ mw ∧ r.bbox.y + r.bbox.height ≤ mh) :
    (placeOne min_x min_y cw ch mw mh st obj).1.length = mh ∧
    (∀ row ∈ (placeOne min_x min_y cw ch mw mh st obj).1, row.length = mw) ∧
    (∀ r ∈ (placeOne min_x min_y cw ch mw mh st obj).2,
      regionEnd r ≤ mw ∧ r.bbox.y + r.bbox.height ≤ mh) := by
  rw [placeOne]
  split
  · rename_i hin
    split
    · exact ⟨h1, h2, h3⟩
    · rename_i c rest heq
      refine ⟨by simpa [setCell] using h1, ?_, ?_⟩
      · intro row hrow
        simp only [setCell] at hrow
        rcases List.mem_or_eq_of_mem_set hrow with hrow' | hrow'
        · exact h2 row hrow'
        · subst hrow'
          rw [List.length_set]
          have hy : roundToUsize ((obj.bbox.y0 - min_y) / ch) < st.1.length :=
            h1 ▸ hin.1
          rw [List.getD_eq_getElem _ _ hy]
          exact h2 _ (List.getElem_mem hy)
      · intro r hr
        rcases List.mem_append.mp hr with hr' | hr'
        · exact h3 r hr'
        · rw [List.mem_singleton.mp hr']
          exact ⟨Nat.succ_le_of_lt hin.2, Nat.succ_le_of_lt hin.1⟩
  · exact ⟨h1, h2, h3⟩

/-- The placement fold preserves the matrix shape and region bounds. -/
theorem placeFold_spec {min_x min_y cw ch : ℚ} {mw mh : Nat} :
    ∀ (objs : List PreciseTextObject)
    (st : List (List Char) × List TextRegion),
    st.1.length = mh → (∀ row ∈ st.1, row.length = mw) →
    (∀ r ∈ st.2, regionEnd r ≤ mw ∧ r.bbox.y + r.bbox.height ≤ mh) →
    (objs.foldl (placeOne min_x min_y cw ch mw mh) st).1.length = mh ∧
    (∀ row ∈ (objs.foldl (placeOne min_x min_y cw ch mw mh) st).1,
      row.length = mw) ∧
    (∀ r ∈ (objs.foldl (placeOne min_x min_y cw ch mw mh) st).2,
      regionEnd r ≤ mw ∧ r.bbox.y + r.bbox.height ≤ mh)
  | [], st, h1, h2, h3 => ⟨h1, h2, h3⟩
  | obj :: objs, st, h1, h2, h3 => by
    rw [List.foldl_cons]
    obtain ⟨g1, g2, g3⟩ := @placeOne_preserves min_x min_y cw ch mw mh st
      obj h1 h2 h3
    exact placeFold_spec objs _ g1 g2 g3

/-- C5: every `CharacterMatrix` that `process_pdf_page` returns
successfully is well-formed: exactly `height` rows, each of length exactly
`width`, and every merged region contained in
`[0, width) × [0, height)`. -/
theorem C5_wellformed (objs : List PreciseTextObject) (m : CharacterMatrix)
    (hok : process_text_objects objs = .ok m) :
    m.matrix.length = m.height ∧ (∀ row ∈ m.matrix, row.length = m.width) ∧
    ∀ r ∈ m.text_regions,
      r.bbox.x + r.bbox.width ≤ m.width ∧
      r.bbox.y + r.bbox.height ≤ m.height := by
  rw [process_text_objects] at hok
  by_cases hobjs : objs.isEmpty
  · rw [if_pos hobjs] at hok
    exact absurd hok (by simp)
  · rw [if_neg hobjs] at hok
    rcases hd : calculate_optimal_matrix_size objs with ⟨mw, mh, cw, ch⟩
    rw [hd] at hok
    simp only at hok
    injection hok with hm
    subst hm
    simp only
    have hinit1 : (List.replicate mh (List.replicate mw ' ')).length = mh :=
      List.length_replicate mh _
    have hinit2 : ∀ row ∈ List.replicate mh (List.replicate mw ' '),
        row.length = mw := by
      intro row hrow
      rw [List.eq_of_mem_replicate hrow]
      exact List.length_replicate mw ' '
    have hinit3 : ∀ r ∈ ([] : List TextRegion),
        regionEnd r ≤ mw ∧ r.bbox.y + r.bbox.height ≤ mh := by
      intro r hr
      exact absurd hr (List.not_mem_nil r)
    obtain ⟨g1, g2, g3⟩ := placeFold_spec objs
      (List.replicate mh (List.replicate mw ' '), ([] : List TextRegion))
      hinit1 hinit2 hinit3
    exact ⟨g1, g2, merge_in_bounds _ g3⟩

/-- C5, witness: the matrix built from one concrete object --- a 10-by-10
grid holding `'A'` at the origin with one 1-by-1 region --- is
well-formed. -/
theorem C5_witness :
    process_text_objects [⟨['A'], ⟨0, 0, 10, 10⟩, 10⟩] =
      .ok ⟨10, 10,
        (List.replicate 10 (List.replicate 10 ' ')).set 0
          ((List.replicate 10 ' ').set 0 'A'),
        [⟨⟨0, 0, 1, 1⟩, 1, ['A'], 0⟩], [['A']], 6, 12⟩ ∧
    ((List.replicate 10 (List.replicate 10 ' ')).set 0
      ((List.replicate 10 ' ').set 0 'A')).length = 10 := by
  have hok : process_text_objects [⟨['A'], ⟨0, 0, 10, 10⟩, 10⟩] =
      .ok ⟨10, 10,
        (List.replicate 10 (List.replicate 10 ' ')).set 0
          ((List.replicate 10 ' ').set 0 'A'),
        [⟨⟨0, 0, 1, 1⟩, 1, ['A'], 0⟩], [['A']], 6, 12⟩ := by
    have hc1 : ⌈(5 : ℚ) / 3⌉ = 2 := by
      rw [Int.ceil_eq_iff]
      norm_num
    have hc2 : ⌈(5 : ℚ) / 6⌉ = 1 := by
      rw [Int.ceil_eq_iff]
      norm_num
    norm_num [process_text_objects, calculate_optimal_matrix_size, modalKey,
      modalKeyInt, countRounded, bumpCount, maxByCountAux, roundQ, minProj,
      maxProj, ceilToUsize, roundToUsize, placeOne, setCell,
      merge_adjacent_regions, mergeOuter, mergeLoop, scanOnce, adjacentB,
      regionEnd, hc1, hc2]
  exact ⟨hok, (C5_wellformed _ _ hok).1⟩

/-! ## Clipboard and drag lemmas -/

theorem writeRow_length : ∀ (rd : List Char) (col : Nat) (content : List Char),
    (writeRow rd col content).length = rd.length
  | _, _, [] => rfl
  | rd, col, ch :: rest => by
    rw [writeRow, writeRow_length (rd.set col ch) (col + 1) rest,
      List.length_set]

/-- Cells strictly left of the write start are untouched. -/
theorem writeRow_frame_lt : ∀ (rd : List Char) (col : Nat)
    (content : List Char) (i : Nat), i < col →
    (writeRow rd col content)[i]? = rd[i]?
  | _, _, [], _, _ => rfl
  | rd, col, ch :: rest, i, hi => by
    rw [writeRow, writeRow_frame_lt (rd.set col ch) (col + 1) rest i
      (Nat.lt_succ_of_lt hi)]
    exact List.getElem?_set_ne (Nat.ne_of_gt hi)

/-- Cells at or beyond the write end are untouched. -/
theorem writeRow_frame_ge : ∀ (rd : List Char) (col : Nat)
    (content : List Char) (i : Nat), col + content.length ≤ i →
    (writeRow rd col content)[i]? = rd[i]?
  | _, _, [], _, _ => rfl
  | rd, col, ch :: rest, i, hi => by
    simp only [List.length_cons] at hi
    rw [writeRow, writeRow_frame_ge (rd.set col ch) (col + 1) rest i (by omega)]
    exact List.getElem?_set_ne (by omega)

/-- The written cells take the content's values. -/
theorem writeRow_getElem? : ∀ (content : List Char) (rd : List Char)
    (col j : Nat), j < content.length → col + j < rd.length →
    (writeRow rd col content)[col + j]? = content[j]?
  | [], _, _, j, hj, _ => absurd hj (Nat.not_lt_zero j)
  | ch :: rest, rd, col, 0, _, hcol => by
    simp only [Nat.add_zero] at hcol ⊢
    rw [writeRow,
      writeRow_frame_lt (rd.set col ch) (col + 1) rest col (Nat.lt_succ_self _)]
    simp [List.getElem?_set_self hcol]
  | ch :: rest, rd, col, j + 1, hj, hcol => by
    rw [writeRow]
    have h1 : col + (j + 1) = (col + 1) + j := by omega
    rw [h1]
    rw [writeRow_getElem? rest (rd.set col ch) (col + 1) j
      (Nat.succ_lt_succ_iff.mp hj) (by rw [List.length_set]; omega)]
    simp

theorem writeRect_length : ∀ (rows : List (List Char))
    (m : List (List Char)) (anchor : Nat × Nat),
    (writeRect m anchor rows).length = m.length
  | [], _, _ => rfl
  | crow :: rest, m, (r, c) => by
    rw [writeRect]
    by_cases hr : r < m.length
    · rw [if_pos hr, writeRect_length rest _ _, List.length_set]
    · rw [if_neg hr, writeRect_length rest _ _]

/-- Rows outside the written band are untouched. -/
theorem writeRect_frame : ∀ (rows : List (List Char))
    (m : List (List Char)) (r c i : Nat),
    (i < r ∨ r + rows.length ≤ i) →
    (writeRect m (r, c) rows)[i]? = m[i]?
  | [], _, _, _, _, _ => rfl
  | crow :: rest, m, r, c, i, hi => by
    rw [writeRect]
    simp only [List.length_cons] at hi
    have hne : r ≠ i := by rcases hi with hi | hi <;> omega
    have hrec : i < r + 1 ∨ (r + 1) + rest.length ≤ i := by
      rcases hi with hi | hi
      · exact Or.inl (Nat.lt_succ_of_lt hi)
      · exact Or.inr (by omega)
    by_cases hr : r < m.length
    · rw [if_pos hr]
      rw [writeRect_frame rest _ (r + 1) c i hrec]
      exact List.getElem?_set_ne hne
    · rw [if_neg hr]
      exact writeRect_frame rest _ (r + 1) c i hrec

/-- Each written row is the original row overwritten by the corresponding
content row. -/
theorem writeRect_row : ∀ (rows : List (List Char)) (m : List (List Char))
    (r c i : Nat) (hi : i < rows.length),
    (writeRect m (r, c) rows)[r + i]? =
      (m[r + i]?).map (fun rd => writeRow rd c (rows.get ⟨i, hi⟩))
  | [], _, _, _, i, hi => absurd hi (Nat.not_lt_zero i)
  | crow :: rest, m, r, c, 0, hi => by
    rw [writeRect]
    dsimp only
    simp only [Nat.add_zero]
    by_cases hr : r < m.length
    · rw [if_pos hr,
        writeRect_frame rest _ (r + 1) c r (Or.inl (Nat.lt_succ_self r))]
      rw [List.getElem?_set_self hr, List.getElem?_eq_getElem hr]
      simp only [Option.map_some']
      rw [List.getD_eq_getElem _ _ hr]
      rfl
    · rw [if_neg hr,
        writeRect_frame rest _ (r + 1) c r (Or.inl (Nat.lt_succ_self r))]
      rw [List.getElem?_eq_none (Nat.le_of_not_lt hr)]
      rfl
  | crow :: rest, m, r, c, i + 1, hi => by
    rw [writeRect]
    dsimp only
    have h1 : r + (i + 1) = (r + 1) + i := by omega
    have hrec := writeRect_row rest
      (if r < m.length then m.set r (writeRow (m.getD r []) c crow) else m)
      (r + 1) c i (Nat.succ_lt_succ_iff.mp hi)
    by_cases hr : r < m.length
    · rw [if_pos hr] at hrec ⊢
      rw [h1, hrec, List.getElem?_set_ne (by omega)]
      rfl
    · rw [if_neg hr] at hrec ⊢
      rw [h1, hrec]
      rfl

/-- A `filterMap` over an ascending index range where every lookup
succeeds has exactly one element per index. -/
theorem filterMapRange_length {α : Type} (g : Nat → Option α) :
    ∀ (n a : Nat), (∀ i, i < n → (g (a + i)).isSome) →
    ((List.range' a n).filterMap g).length = n
  | 0, _, _ => rfl
  | n + 1, a, h => by
    obtain ⟨v, hv⟩ := Option.isSome_iff_exists.mp
      (by simpa using h 0 (Nat.succ_pos n))
    show ((a :: List.range' (a + 1) n).filterMap g).length = n + 1
    rw [List.filterMap_cons, hv]
    rw [List.length_cons,
      filterMapRange_length g n (a + 1)
        (fun i hi => by
          have := h (i + 1) (Nat.succ_lt_succ hi)
          rwa [show a + (i + 1) = (a + 1) + i by omega] at this)]

/-- Indexing a `filterMap` over an ascending range of successful lookups
is lookup at the shifted index. -/
theorem filterMapRange_getElem? {α : Type} (g : Nat → Option α) :
    ∀ (n a j : Nat), j < n → (∀ i, i < n → (g (a + i)).isSome) →
    ((List.range' a n).filterMap g)[j]? = g (a + j)
  | 0, _, j, hj, _ => absurd hj (Nat.not_lt_zero j)
  | n + 1, a, j, hj, h => by
    obtain ⟨v, hv⟩ := Option.isSome_iff_exists.mp
      (by simpa using h 0 (Nat.succ_pos n))
    show ((a :: List.range' (a + 1) n).filterMap g)[j]? = g (a + j)
    rw [List.filterMap_cons, hv]
    cases j with
    | zero => simp [hv]
    | succ j =>
      have hrec := filterMapRange_getElem? g n (a + 1) j
        (Nat.succ_lt_succ_iff.mp hj)
        (fun i hi => by
          have := h (i + 1) (Nat.succ_lt_succ hi)
          rwa [show a + (i + 1) = (a + 1) + i by omega] at this)
      rw [show a + (j + 1) = (a + 1) + j by omega, ← hrec]
      simp

/-- A kept row of the rectangle snapshot: row `i` of the clipboard is the
column window of source row `minRow + i`. -/
theorem copyRect_getElem? {m : List (List Char)} {minRow maxRow minc maxc i : Nat}
    (hle : minRow + i ≤ maxRow) (hmax : maxRow < m.length) :
    (copyRect m minRow maxRow minc maxc)[i]? =
      some (selectedRowChars (m.getD (minRow + i) []) minc maxc) := by
  rw [copyRect]
  have hsome : ∀ k, k < maxRow + 1 - minRow →
      ((fun row => (m.get? row).map
        (fun rd => selectedRowChars rd minc maxc)) (minRow + k)).isSome := by
    intro k hk
    have hrow : minRow + k < m.length := by omega
    simp [List.get?_eq_getElem?, List.getElem?_eq_getElem hrow]
  rw [filterMapRange_getElem? _ _ _ _ (by omega) hsome]
  have hrow : minRow + i < m.length := by omega
  simp [List.get?_eq_getElem?, List.getElem?_eq_getElem hrow,
    List.getD_eq_getElem _ _ hrow]

/-- The clipboard of an in-bounds rectangle has one row per selected
row. -/
theorem copyRect_length {m : List (List Char)} {minRow maxRow minc maxc : Nat}
    (hmax : maxRow < m.length) :
    (copyRect m minRow maxRow minc maxc).length = maxRow + 1 - minRow := by
  rw [copyRect]
  refine filterMapRange_length _ _ _ ?_
  intro k hk
  have hrow : minRow + k < m.length := by omega
  simp [List.get?_eq_getElem?, List.getElem?_eq_getElem hrow]

/-- A cell of the column window is the source cell at the shifted
column. -/
theorem selectedRowChars_getElem? {rd : List Char} {minc maxc j : Nat}
    (hj : minc + j ≤ min maxc (rd.length - 1)) (hrd : rd ≠ []) :
    (selectedRowChars rd minc maxc)[j]? = rd[minc + j]? := by
  have hlen : 0 < rd.length := List.length_pos.mpr hrd
  rw [selectedRowChars]
  have hsome : ∀ k, k < min maxc (rd.length - 1) + 1 - minc →
      (rd.get? (minc + k)).isSome := by
    intro k hk
    have : minc + k < rd.length := by omega
    simp [List.get?_eq_getElem?, List.getElem?_eq_getElem this]
  rw [filterMapRange_getElem? _ _ _ _ (by omega) hsome]
  rw [List.get?_eq_getElem?]

/-- The column window of an in-bounds rectangle row has one cell per
selected column. -/
theorem selectedRowChars_length {rd : List Char} {minc maxc : Nat}
    (hrd : rd ≠ []) :
    (selectedRowChars rd minc maxc).length =
      min maxc (rd.length - 1) + 1 - minc := by
  have hlen : 0 < rd.length := List.length_pos.mpr hrd
  rw [selectedRowChars]
  refine filterMapRange_length _ _ _ ?_
  intro k hk
  have : minc + k < rd.length := by omega
  simp [List.get?_eq_getElem?, List.getElem?_eq_getElem this]

/-- Read a cell through two successful lookups. -/
theorem cellAt_eq {m : List (List Char)} {r c : Nat} {rd : List Char}
    {ch : Char} (h1 : m[r]? = some rd) (h2 : rd[c]? = some ch) :
    cellAt m r c = ch := by
  rw [cellAt, List.getD_eq_getElem?_getD, List.getD_eq_getElem?_getD, h1]
  simp [h2]

/-- The paste handler never moves the cursor. -/
theorem pasteOp_cursor (x : MatrixGrid) :
    (x.pasteOp).cursor_pos = x.cursor_pos := by
  rw [MatrixGrid.pasteOp]
  by_cases h : x.clipboard.isEmpty
  · rw [if_pos h]
  · rw [if_neg h]

/-- C7: clipboard round trip.  For an active selection of at most 100,000
cells, copy does not change the grid; paste (anchored at the cursor, else
the selection start, else the origin) does not move the cursor; and every
destination cell that is in bounds receives the character the
corresponding source cell held at the moment of the copy. -/
theorem C7_copy_paste (g : MatrixGrid) (st en : Nat × Nat)
    (hsel : g.selection = { start := some st, stop := some en })
    (hsize : (max st.1 en.1 - min st.1 en.1 + 1) *
      (max st.2 en.2 - min st.2 en.2 + 1) ≤ 100000) :
    (g.copyOp).matrix = g.matrix ∧
    (g.copyOp.pasteOp).cursor_pos = g.cursor_pos ∧
    ∀ i j : Nat,
      min (min st.1 en.1) (g.matrix.length - 1) + i ≤
        min (max st.1 en.1) (g.matrix.length - 1) →
      min st.2 en.2 + j ≤ max st.2 en.2 →
      min st.2 en.2 + j <
        (g.matrix.getD
          (min (min st.1 en.1) (g.matrix.length - 1) + i) []).length →
      (pasteAnchor g).1 + i < g.matrix.length →
      (pasteAnchor g).2 + j <
        (g.matrix.getD ((pasteAnchor g).1 + i) []).length →
      cellAt (g.copyOp.pasteOp).matrix ((pasteAnchor g).1 + i)
          ((pasteAnchor g).2 + j) =
        cellAt g.matrix (min (min st.1 en.1) (g.matrix.length - 1) + i)
          (min st.2 en.2 + j) := by
  have hstart : g.selection.start = some st := by rw [hsel]
  have hstop : g.selection.stop = some en := by rw [hsel]
  have hsize' : (min (max st.1 en.1) (g.matrix.length - 1) -
      min (min st.1 en.1) (g.matrix.length - 1) + 1) *
      (max st.2 en.2 - min st.2 en.2 + 1) ≤ 100000 :=
    le_trans (Nat.mul_le_mul_right _ (by omega)) hsize
  have hcopy : g.copyOp = { g with clipboard :=
      (copyRect g.matrix
        (min (min st.1 en.1) (g.matrix.length - 1))
        (min (max st.1 en.1) (g.matrix.length - 1))
        (min st.2 en.2) (max st.2 en.2)) } := by
    simp only [MatrixGrid.copyOp, hstart, hstop]
    rw [if_pos hsize']
  refine ⟨by rw [hcopy], by rw [pasteOp_cursor, hcopy], ?_⟩
  intro i j hi hj1 hj2 hp1 hp2
  have hlen0 : 0 < g.matrix.length := Nat.lt_of_le_of_lt (Nat.zero_le _) hp1
  have hmaxR : min (max st.1 en.1) (g.matrix.length - 1) < g.matrix.length := by
    omega
  have hminRi : min (min st.1 en.1) (g.matrix.length - 1) + i <
      g.matrix.length := by omega
  have hsrc? : g.matrix[min (min st.1 en.1) (g.matrix.length - 1) + i]? =
      some (g.matrix.getD
        (min (min st.1 en.1) (g.matrix.length - 1) + i) []) := by
    rw [List.getElem?_eq_getElem hminRi, List.getD_eq_getElem _ _ hminRi]
  have hrdne : g.matrix.getD
      (min (min st.1 en.1) (g.matrix.length - 1) + i) [] ≠ [] := by
    intro hc
    rw [hc] at hj2
    simp at hj2
  have hjmin : min st.2 en.2 + j ≤ min (max st.2 en.2)
      ((g.matrix.getD
        (min (min st.1 en.1) (g.matrix.length - 1) + i) []).length - 1) := by
    omega
  have hclip := @copyRect_getElem? g.matrix
    (min (min st.1 en.1) (g.matrix.length - 1))
    (min (max st.1 en.1) (g.matrix.length - 1))
    (min st.2 en.2) (max st.2 en.2) i hi hmaxR
  have hclipLen : i < (copyRect g.matrix
      (min (min st.1 en.1) (g.matrix.length - 1))
      (min (max st.1 en.1) (g.matrix.length - 1))
      (min st.2 en.2) (max st.2 en.2)).length := by
    rw [copyRect_length hmaxR]
    omega
  have hclipGet : (copyRect g.matrix
      (min (min st.1 en.1) (g.matrix.length - 1))
      (min (max st.1 en.1) (g.matrix.length - 1))
      (min st.2 en.2) (max st.2 en.2)).get ⟨i, hclipLen⟩ =
      selectedRowChars (g.matrix.getD
        (min (min st.1 en.1) (g.matrix.length - 1) + i) [])
        (min st.2 en.2) (max st.2 en.2) := by
    have h1 := List.getElem?_eq_getElem hclipLen
    rw [hclip] at h1
    exact (List.get_eq_getElem _ _).trans (Option.some.inj h1).symm
  have hclipNE : ¬(copyRect g.matrix
      (min (min st.1 en.1) (g.matrix.length - 1))
      (min (max st.1 en.1) (g.matrix.length - 1))
      (min st.2 en.2) (max st.2 en.2)).isEmpty = true := by
    intro hc
    rw [List.isEmpty_iff] at hc
    rw [hc] at hclipLen
    simp at hclipLen
  have hpaste : (g.copyOp.pasteOp).matrix = writeRect g.matrix (pasteAnchor g)
      (copyRect g.matrix
        (min (min st.1 en.1) (g.matrix.length - 1))
        (min (max st.1 en.1) (g.matrix.length - 1))
        (min st.2 en.2) (max st.2 en.2)) := by
    rw [hcopy, MatrixGrid.pasteOp]
    rw [if_neg hclipNE]
    rfl
  have hdst? : g.matrix[(pasteAnchor g).1 + i]? =
      some (g.matrix.getD ((pasteAnchor g).1 + i) []) := by
    rw [List.getElem?_eq_getElem hp1, List.getD_eq_getElem _ _ hp1]
  have hrow := writeRect_row (copyRect g.matrix
      (min (min st.1 en.1) (g.matrix.length - 1))
      (min (max st.1 en.1) (g.matrix.length - 1))
      (min st.2 en.2) (max st.2 en.2)) g.matrix
      (pasteAnchor g).1 (pasteAnchor g).2 i hclipLen
  rw [Prod.mk.eta, hdst?, hclipGet] at hrow
  simp only [Option.map_some'] at hrow
  have hjlt : j < (selectedRowChars (g.matrix.getD
      (min (min st.1 en.1) (g.matrix.length - 1) + i) [])
      (min st.2 en.2) (max st.2 en.2)).length := by
    rw [selectedRowChars_length hrdne]
    omega
  have hwrow := writeRow_getElem? (selectedRowChars (g.matrix.getD
      (min (min st.1 en.1) (g.matrix.length - 1) + i) [])
      (min st.2 en.2) (max st.2 en.2))
      (g.matrix.getD ((pasteAnchor g).1 + i) []) (pasteAnchor g).2 j
      hjlt hp2
  have hselRow := selectedRowChars_getElem? hjmin hrdne
  have hchar := List.getElem?_eq_getElem hj2
  rw [cellAt_eq (hpaste ▸ hrow) (hwrow.trans (hselRow.trans hchar)),
    cellAt_eq hsrc? hchar]

/-- C7, witness: on the concrete 4-by-4 grid with selection
`(0,0)`-`(1,1)` and cursor `(2,2)`, copy leaves the grid unchanged, paste
leaves the cursor at `(2,2)`, and the destination cell `(2,2)` receives
the source cell `(0,0)`. -/
theorem C7_witness :
    (gridW.copyOp).matrix = gridW.matrix ∧
    (gridW.copyOp.pasteOp).cursor_pos = gridW.cursor_pos ∧
    cellAt (gridW.copyOp.pasteOp).matrix ((pasteAnchor gridW).1 + 0)
        ((pasteAnchor gridW).2 + 0) =
      cellAt gridW.matrix
        (min (min 0 1) (gridW.matrix.length - 1) + 0) (min 0 1 + 0) := by
  obtain ⟨h1, h2, h3⟩ := C7_copy_paste gridW (0, 0) (1, 1) rfl (by decide)
  exact ⟨h1, h2, h3 0 0 (by decide) (by decide) (by decide) (by decide)
    (by decide)⟩

theorem blankRowAux_length (minc rmc : Nat) :
    ∀ (l : List Char) (i0 : Nat),
    (blankRowAux minc rmc i0 l).length = l.length
  | [], _ => rfl
  | c :: cs, i0 => by
    rw [blankRowAux, List.length_cons, List.length_cons,
      blankRowAux_length minc rmc cs (i0 + 1)]

theorem blankRowAux_getElem? (minc rmc : Nat) :
    ∀ (l : List Char) (i0 i : Nat),
    (blankRowAux minc rmc i0 l)[i]? =
      (l[i]?).map (fun ch => if minc ≤ i0 + i ∧ i0 + i ≤ rmc then ' ' else ch)
  | [], _, _ => by simp [blankRowAux]
  | c :: cs, i0, 0 => by
    simp [blankRowAux]
  | c :: cs, i0, i + 1 => by
    rw [blankRowAux, List.getElem?_cons_succ, List.getElem?_cons_succ,
      blankRowAux_getElem? minc rmc cs (i0 + 1) i,
      show i0 + (i + 1) = (i0 + 1) + i by omega]

theorem blankRow_length (rd : List Char) (minc maxc : Nat) :
    (blankRow rd minc maxc).length = rd.length :=
  blankRowAux_length _ _ rd 0

theorem blankRow_getElem? (rd : List Char) (minc maxc i : Nat) :
    (blankRow rd minc maxc)[i]? =
      (rd[i]?).map (fun ch =>
        if minc ≤ i ∧ i ≤ min maxc (rd.length - 1) then ' ' else ch) := by
  rw [blankRow, blankRowAux_getElem?]
  simp

theorem blankRectAux_length (minRow maxRow minc maxc : Nat) :
    ∀ (m : List (List Char)) (r0 : Nat),
    (blankRectAux minRow maxRow minc maxc r0 m).length = m.length
  | [], _ => rfl
  | rd :: rds, r0 => by
    rw [blankRectAux, List.length_cons, List.length_cons,
      blankRectAux_length minRow maxRow minc maxc rds (r0 + 1)]

theorem blankRectAux_getElem? (minRow maxRow minc maxc : Nat) :
    ∀ (m : List (List Char)) (r0 r : Nat),
    (blankRectAux minRow maxRow minc maxc r0 m)[r]? =
      (m[r]?).map (fun rd =>
        if minRow ≤ r0 + r ∧ r0 + r ≤ maxRow then blankRow rd minc maxc
        else rd)
  | [], _, _ => by simp [blankRectAux]
  | rd :: rds, r0, 0 => by
    simp [blankRectAux]
  | rd :: rds, r0, r + 1 => by
    rw [blankRectAux, List.getElem?_cons_succ, List.getElem?_cons_succ,
      blankRectAux_getElem? minRow maxRow minc maxc rds (r0 + 1) r,
      show r0 + (r + 1) = (r0 + 1) + r by omega]

theorem blankRect_length (m : List (List Char)) (minRow maxRow minc maxc : Nat) :
    (blankRect m minRow maxRow minc maxc).length = m.length :=
  blankRectAux_length _ _ _ _ m 0

theorem blankRect_getElem? (m : List (List Char)) (minRow maxRow minc maxc r : Nat) :
    (blankRect m minRow maxRow minc maxc)[r]? =
      (m[r]?).map (fun rd =>
        if minRow ≤ r ∧ r ≤ maxRow then blankRow rd minc maxc else rd) := by
  rw [blankRect, blankRectAux_getElem?]
  simp

/-- C8: drag-move round trip.  For an active selection rectangle `A` fully
inside bounds, starting a drag inside `A` copies `A`'s content into the
drag payload, blanks every cell of `A` and sets the dirty flag; releasing
at `B` (the payload rectangle anchored at `(brow, bcol)`, fully in bounds
and not overlapping `A`) leaves every cell of `A` blank, places `A`'s
original content in `B`, and leaves all other in-bounds cells
unchanged. -/
theorem C8_drag_move (g : MatrixGrid) (st en : Nat × Nat)
    (srow scol brow bcol : Nat)
    (hsel : g.selection = { start := some st, stop := some en })
    (hmaxR : max st.1 en.1 < g.matrix.length)
    (hrowsA : ∀ i, i ≤ max st.1 en.1 - min st.1 en.1 →
      max st.2 en.2 < (g.matrix.getD (min st.1 en.1 + i) []).length)
    (hs1 : min st.1 en.1 ≤ srow) (hs2 : srow ≤ max st.1 en.1)
    (hs3 : min st.2 en.2 ≤ scol) (hs4 : scol ≤ max st.2 en.2)
    (hbR : brow + (max st.1 en.1 - min st.1 en.1) < g.matrix.length)
    (hrowsB : ∀ i, i ≤ max st.1 en.1 - min st.1 en.1 →
      bcol + (max st.2 en.2 - min st.2 en.2) <
        (g.matrix.getD (brow + i) []).length)
    (hno : ∀ r c, brow ≤ r → r ≤ brow + (max st.1 en.1 - min st.1 en.1) →
      bcol ≤ c → c ≤ bcol + (max st.2 en.2 - min st.2 en.2) →
      ¬(min st.1 en.1 ≤ r ∧ r ≤ max st.1 en.1 ∧
        min st.2 en.2 ≤ c ∧ c ≤ max st.2 en.2)) :
    ((g.dragStartOp srow scol).modified = true) ∧
    (∀ i j, i ≤ max st.1 en.1 - min st.1 en.1 →
      j ≤ max st.2 en.2 - min st.2 en.2 →
      cellAt (g.dragStartOp srow scol).drag_content i j =
        cellAt g.matrix (min st.1 en.1 + i) (min st.2 en.2 + j)) ∧
    (∀ r c, min st.1 en.1 ≤ r → r ≤ max st.1 en.1 →
      min st.2 en.2 ≤ c → c ≤ max st.2 en.2 →
      cellAt (g.dragStartOp srow scol).matrix r c = ' ') ∧
    (∀ i j, i ≤ max st.1 en.1 - min st.1 en.1 →
      j ≤ max st.2 en.2 - min st.2 en.2 →
      cellAt ((g.dragStartOp srow scol).dragReleaseOp brow bcol).matrix
        (brow + i) (bcol + j) =
        cellAt g.matrix (min st.1 en.1 + i) (min st.2 en.2 + j)) ∧
    (∀ r c, min st.1 en.1 ≤ r → r ≤ max st.1 en.1 →
      min st.2 en.2 ≤ c → c ≤ max st.2 en.2 →
      cellAt ((g.dragStartOp srow scol).dragReleaseOp brow bcol).matrix
        r c = ' ') ∧
    (∀ r c, r < g.matrix.length → c < (g.matrix.getD r []).length →
      ¬(min st.1 en.1 ≤ r ∧ r ≤ max st.1 en.1 ∧
        min st.2 en.2 ≤ c ∧ c ≤ max st.2 en.2) →
      ¬(brow ≤ r ∧ r ≤ brow + (max st.1 en.1 - min st.1 en.1) ∧
        bcol ≤ c ∧ c ≤ bcol + (max st.2 en.2 - min st.2 en.2)) →
      cellAt ((g.dragStartOp srow scol).dragReleaseOp brow bcol).matrix
        r c = cellAt g.matrix r c) := by
  have hselT : g.selection.is_selected srow scol = true := by
    rw [hsel]
    simp only [MatrixSelection.is_selected, Bool.and_eq_true, decide_eq_true_eq]
    omega
  have hminEq : min (min st.1 en.1) (g.matrix.length - 1) = min st.1 en.1 := by
    omega
  have hmaxEq : min (max st.1 en.1) (g.matrix.length - 1) = max st.1 en.1 := by
    omega
  have hg1 : g.dragStartOp srow scol = { g with
      is_dragging_selection := true,
      drag_start_pos := some (srow, scol),
      drag_content := (copyRect g.matrix (min st.1 en.1) (max st.1 en.1)
        (min st.2 en.2) (max st.2 en.2)),
      matrix := (blankRect g.matrix (min st.1 en.1) (max st.1 en.1)
        (min st.2 en.2) (max st.2 en.2)),
      modified := true } := by
    rw [MatrixGrid.dragStartOp,
      if_pos ⟨hselT, by rw [hsel]; rfl, by rw [hsel]; rfl⟩]
    simp only [hsel]
    rw [hminEq, hmaxEq]
  have hg2 : (g.dragStartOp srow scol).dragReleaseOp brow bcol = { g with
      matrix := writeRect
        (blankRect g.matrix (min st.1 en.1) (max st.1 en.1)
          (min st.2 en.2) (max st.2 en.2)) (brow, bcol)
        (copyRect g.matrix (min st.1 en.1) (max st.1 en.1)
          (min st.2 en.2) (max st.2 en.2)),
      modified := true,
      selection := { start := none, stop := none },
      is_dragging_selection := false,
      drag_start_pos := none,
      drag_content := [] } := by
    rw [hg1, MatrixGrid.dragReleaseOp, if_pos rfl]
  have hclipLen : (copyRect g.matrix (min st.1 en.1) (max st.1 en.1)
      (min st.2 en.2) (max st.2 en.2)).length =
      max st.1 en.1 + 1 - min st.1 en.1 := copyRect_length hmaxR
  -- the source cell of offset (i, j), as an option equation
  have hsrcRow : ∀ i, i ≤ max st.1 en.1 - min st.1 en.1 →
      g.matrix[min st.1 en.1 + i]? =
        some (g.matrix.getD (min st.1 en.1 + i) []) := by
    intro i hi
    have h : min st.1 en.1 + i < g.matrix.length := by omega
    rw [List.getElem?_eq_getElem h, List.getD_eq_getElem _ _ h]
  have hsrcNE : ∀ i, i ≤ max st.1 en.1 - min st.1 en.1 →
      g.matrix.getD (min st.1 en.1 + i) [] ≠ [] := by
    intro i hi hc
    have := hrowsA i hi
    rw [hc] at this
    simp at this
  have hclipRow : ∀ i, i ≤ max st.1 en.1 - min st.1 en.1 →
      (copyRect g.matrix (min st.1 en.1) (max st.1 en.1)
        (min st.2 en.2) (max st.2 en.2))[i]? =
      some (selectedRowChars (g.matrix.getD (min st.1 en.1 + i) [])
        (min st.2 en.2) (max st.2 en.2)) := by
    intro i hi
    exact copyRect_getElem? (by omega) hmaxR
  have hselRowLen : ∀ i, i ≤ max st.1 en.1 - min st.1 en.1 →
      (selectedRowChars (g.matrix.getD (min st.1 en.1 + i) [])
        (min st.2 en.2) (max st.2 en.2)).length =
      max st.2 en.2 + 1 - min st.2 en.2 := by
    intro i hi
    rw [selectedRowChars_length (hsrcNE i hi)]
    have := hrowsA i hi
    omega
  have hselRowCell : ∀ i j, i ≤ max st.1 en.1 - min st.1 en.1 →
      j ≤ max st.2 en.2 - min st.2 en.2 →
      (selectedRowChars (g.matrix.getD (min st.1 en.1 + i) [])
        (min st.2 en.2) (max st.2 en.2))[j]? =
      some ((g.matrix.getD (min st.1 en.1 + i) []).getD
        (min st.2 en.2 + j) ' ') := by
    intro i j hi hj
    have hlr := hrowsA i hi
    have hcell : min st.2 en.2 + j <
        (g.matrix.getD (min st.1 en.1 + i) []).length := by omega
    rw [selectedRowChars_getElem? (by omega) (hsrcNE i hi),
      List.getElem?_eq_getElem hcell, List.getD_eq_getElem _ _ hcell]
  -- the blanked matrix rows
  have hblankRow : ∀ r, r < g.matrix.length →
      (blankRect g.matrix (min st.1 en.1) (max st.1 en.1)
        (min st.2 en.2) (max st.2 en.2))[r]? =
      some (if min st.1 en.1 ≤ r ∧ r ≤ max st.1 en.1 then
        blankRow (g.matrix.getD r []) (min st.2 en.2) (max st.2 en.2)
      else g.matrix.getD r []) := by
    intro r hr
    rw [blankRect_getElem?, List.getElem?_eq_getElem hr,
      List.getD_eq_getElem _ _ hr]
    rfl
  have hblankCell : ∀ r c, min st.1 en.1 ≤ r → r ≤ max st.1 en.1 →
      min st.2 en.2 ≤ c → c ≤ max st.2 en.2 →
      (blankRow (g.matrix.getD r []) (min st.2 en.2) (max st.2 en.2))[c]? =
        some ' ' := by
    intro r c h1 h2 h3 h4
    have hlr := hrowsA (r - min st.1 en.1) (by omega)
    rw [show min st.1 en.1 + (r - min st.1 en.1) = r by omega] at hlr
    have hc : c < (g.matrix.getD r []).length := by omega
    rw [blankRow_getElem?, List.getElem?_eq_getElem hc]
    simp only [Option.map_some']
    rw [if_pos ⟨h3, by omega⟩]
  have hblankFrame : ∀ r c, r < g.matrix.length →
      ¬(min st.1 en.1 ≤ r ∧ r ≤ max st.1 en.1 ∧
        min st.2 en.2 ≤ c ∧ c ≤ max st.2 en.2) →
      ((if min st.1 en.1 ≤ r ∧ r ≤ max st.1 en.1 then
        blankRow (g.matrix.getD r []) (min st.2 en.2) (max st.2 en.2)
      else g.matrix.getD r []))[c]? = (g.matrix.getD r [])[c]? := by
    intro r c hr hout
    by_cases hrin : min st.1 en.1 ≤ r ∧ r ≤ max st.1 en.1
    · rw [if_pos hrin, blankRow_getElem?]
      rcases hcv : (g.matrix.getD r [])[c]? with - | ch
      · rfl
      · simp only [Option.map_some']
        rw [if_neg ?_]
        intro ⟨hc1, hc2⟩
        exact hout ⟨hrin.1, hrin.2, hc1, by omega⟩
    · rw [if_neg hrin]
  refine ⟨by rw [hg1], ?_, ?_, ?_, ?_, ?_⟩
  · -- payload content
    intro i j hi hj
    rw [hg1]
    exact cellAt_eq (hclipRow i hi) (hselRowCell i j hi hj)
  · -- A blanked at pickup
    intro r c h1 h2 h3 h4
    rw [hg1]
    have hr : r < g.matrix.length := by omega
    have hb := hblankRow r hr
    rw [if_pos ⟨h1, h2⟩] at hb
    exact cellAt_eq hb (hblankCell r c h1 h2 h3 h4)
  · -- B receives A's content
    intro i j hi hj
    rw [hg2]
    have hiclip : i < (copyRect g.matrix (min st.1 en.1) (max st.1 en.1)
        (min st.2 en.2) (max st.2 en.2)).length := by
      rw [hclipLen]; omega
    have hrow := writeRect_row _ (blankRect g.matrix (min st.1 en.1)
      (max st.1 en.1) (min st.2 en.2) (max st.2 en.2)) brow bcol i hiclip
    have hbrow : brow + i < g.matrix.length := by omega
    have hdst := hblankRow (brow + i)
      (by rw [← blankRect_length g.matrix (min st.1 en.1) (max st.1 en.1)
        (min st.2 en.2) (max st.2 en.2)] at hbrow ⊢; exact hbrow)
    have hnoB : ¬(min st.1 en.1 ≤ brow + i ∧ brow + i ≤ max st.1 en.1 ∧
        min st.2 en.2 ≤ bcol ∧ bcol ≤ max st.2 en.2) := by
      intro hin
      exact hno (brow + i) bcol (by omega) (by omega) (by omega) (by omega)
        ⟨hin.1, hin.2.1, hin.2.2.1, hin.2.2.2⟩
    rw [hdst] at hrow
    simp only [Option.map_some'] at hrow
    have hclipGet : (copyRect g.matrix (min st.1 en.1) (max st.1 en.1)
        (min st.2 en.2) (max st.2 en.2)).get ⟨i, hiclip⟩ =
        selectedRowChars (g.matrix.getD (min st.1 en.1 + i) [])
          (min st.2 en.2) (max st.2 en.2) := by
      have h1 := List.getElem?_eq_getElem hiclip
      rw [hclipRow i hi] at h1
      exact (List.get_eq_getElem _ _).trans (Option.some.inj h1).symm
    rw [hclipGet] at hrow
    have hXlen : (if min st.1 en.1 ≤ brow + i ∧ brow + i ≤ max st.1 en.1 then
        blankRow (g.matrix.getD (brow + i) []) (min st.2 en.2) (max st.2 en.2)
      else g.matrix.getD (brow + i) []).length =
        (g.matrix.getD (brow + i) []).length := by
      split
      · exact blankRow_length _ _ _
      · rfl
    have hjlt : j < (selectedRowChars (g.matrix.getD (min st.1 en.1 + i) [])
        (min st.2 en.2) (max st.2 en.2)).length := by
      rw [hselRowLen i hi]; omega
    have hw := writeRow_getElem? (selectedRowChars
      (g.matrix.getD (min st.1 en.1 + i) [])
      (min st.2 en.2) (max st.2 en.2)) _ bcol j hjlt
      (by rw [hXlen]; have := hrowsB i hi; omega)
    have hchain := hw.trans (hselRowCell i j hi hj)
    have hsrcCell : (g.matrix.getD (min st.1 en.1 + i) [])[min st.2 en.2 + j]? =
        some ((g.matrix.getD (min st.1 en.1 + i) []).getD
          (min st.2 en.2 + j) ' ') := by
      have hlr := hrowsA i hi
      have hcell : min st.2 en.2 + j <
          (g.matrix.getD (min st.1 en.1 + i) []).length := by omega
      rw [List.getElem?_eq_getElem hcell, List.getD_eq_getElem _ _ hcell]
    rw [cellAt_eq hrow hchain, cellAt_eq (hsrcRow i hi) hsrcCell]
  · -- A stays blank after the drop
    intro r c h1 h2 h3 h4
    rw [hg2]
    have hr : r < g.matrix.length := by omega
    have hb := hblankRow r hr
    rw [if_pos ⟨h1, h2⟩] at hb
    by_cases hband : brow ≤ r ∧ r < brow + (copyRect g.matrix (min st.1 en.1)
        (max st.1 en.1) (min st.2 en.2) (max st.2 en.2)).length
    · have hiclip : r - brow < (copyRect g.matrix (min st.1 en.1)
          (max st.1 en.1) (min st.2 en.2) (max st.2 en.2)).length := by
        omega
      have hrow := writeRect_row _ (blankRect g.matrix (min st.1 en.1)
        (max st.1 en.1) (min st.2 en.2) (max st.2 en.2)) brow bcol
        (r - brow) hiclip
      rw [show brow + (r - brow) = r by omega] at hrow
      rw [hb] at hrow
      simp only [Option.map_some'] at hrow
      have hclipGet : (copyRect g.matrix (min st.1 en.1) (max st.1 en.1)
          (min st.2 en.2) (max st.2 en.2)).get ⟨r - brow, hiclip⟩ =
          selectedRowChars (g.matrix.getD (min st.1 en.1 + (r - brow)) [])
            (min st.2 en.2) (max st.2 en.2) := by
        have h1 := List.getElem?_eq_getElem hiclip
        rw [hclipRow (r - brow) (by rw [hclipLen] at hiclip; omega)] at h1
        exact (List.get_eq_getElem _ _).trans (Option.some.inj h1).symm
      rw [hclipGet] at hrow
      have hjlen := hselRowLen (r - brow) (by rw [hclipLen] at hiclip; omega)
      by_cases hcin : bcol ≤ c ∧ c < bcol + (max st.2 en.2 + 1 - min st.2 en.2)
      · exfalso
        exact hno r c hband.1 (by rw [hclipLen] at hband; omega)
          hcin.1 (by omega) ⟨h1, h2, h3, h4⟩
      · have hcell : (writeRow (blankRow (g.matrix.getD r [])
            (min st.2 en.2) (max st.2 en.2)) bcol
            (selectedRowChars (g.matrix.getD (min st.1 en.1 + (r - brow)) [])
              (min st.2 en.2) (max st.2 en.2)))[c]? =
            (blankRow (g.matrix.getD r [])
              (min st.2 en.2) (max st.2 en.2))[c]? := by
          rcases Nat.lt_or_ge c bcol with hc | hc
          · exact writeRow_frame_lt _ _ _ _ hc
          · refine writeRow_frame_ge _ _ _ _ ?_
            rw [hjlen]
            omega
        rw [cellAt_eq hrow (hcell.trans (hblankCell r c h1 h2 h3 h4))]
    · have hrow := writeRect_frame (copyRect g.matrix (min st.1 en.1)
        (max st.1 en.1) (min st.2 en.2) (max st.2 en.2))
        (blankRect g.matrix (min st.1 en.1) (max st.1 en.1)
          (min st.2 en.2) (max st.2 en.2)) brow bcol r (by omega)
      rw [hb] at hrow
      rw [cellAt_eq hrow (hblankCell r c h1 h2 h3 h4)]
  · -- all other in-bounds cells unchanged
    intro r c hr hc houtA houtB
    rw [hg2]
    have hsrc? : g.matrix[r]? = some (g.matrix.getD r []) := by
      rw [List.getElem?_eq_getElem hr, List.getD_eq_getElem _ _ hr]
    have hb := hblankRow r hr
    have hbf := hblankFrame r c hr houtA
    have hcell? : (g.matrix.getD r [])[c]? =
        some ((g.matrix.getD r []).getD c ' ') := by
      rw [List.getElem?_eq_getElem hc, List.getD_eq_getElem _ _ hc]
    by_cases hband : brow ≤ r ∧ r < brow + (copyRect g.matrix (min st.1 en.1)
        (max st.1 en.1) (min st.2 en.2) (max st.2 en.2)).length
    · have hiclip : r - brow < (copyRect g.matrix (min st.1 en.1)
          (max st.1 en.1) (min st.2 en.2) (max st.2 en.2)).length := by
        omega
      have hrow := writeRect_row _ (blankRect g.matrix (min st.1 en.1)
        (max st.1 en.1) (min st.2 en.2) (max st.2 en.2)) brow bcol
        (r - brow) hiclip
      rw [show brow + (r - brow) = r by omega] at hrow
      rw [hb] at hrow
      simp only [Option.map_some'] at hrow
      have hioff : r - brow ≤ max st.1 en.1 - min st.1 en.1 := by
        rw [hclipLen] at hiclip; omega
      have hclipGet : (copyRect g.matrix (min st.1 en.1) (max st.1 en.1)
          (min st.2 en.2) (max st.2 en.2)).get ⟨r - brow, hiclip⟩ =
          selectedRowChars (g.matrix.getD (min st.1 en.1 + (r - brow)) [])
            (min st.2 en.2) (max st.2 en.2) := by
        have h1 := List.getElem?_eq_getElem hiclip
        rw [hclipRow (r - brow) hioff] at h1
        exact (List.get_eq_getElem _ _).trans (Option.some.inj h1).symm
      rw [hclipGet] at hrow
      have hjlen := hselRowLen (r - brow) hioff
      by_cases hcin : bcol ≤ c ∧ c < bcol + (max st.2 en.2 + 1 - min st.2 en.2)
      · exfalso
        exact houtB ⟨hband.1, by rw [hclipLen] at hband; omega,
          hcin.1, by omega⟩
      · have hcell : (writeRow (if min st.1 en.1 ≤ r ∧ r ≤ max st.1 en.1 then
            blankRow (g.matrix.getD r []) (min st.2 en.2) (max st.2 en.2)
          else g.matrix.getD r []) bcol
            (selectedRowChars (g.matrix.getD (min st.1 en.1 + (r - brow)) [])
              (min st.2 en.2) (max st.2 en.2)))[c]? =
            (g.matrix.getD r [])[c]? := by
          refine Eq.trans ?_ (hbf)
          rcases Nat.lt_or_ge c bcol with hcb | hcb
          · exact writeRow_frame_lt _ _ _ _ hcb
          · refine writeRow_frame_ge _ _ _ _ ?_
            rw [hjlen]
            omega
        rw [cellAt_eq hrow (hcell.trans hcell?), cellAt_eq hsrc? hcell?]
    · have hrow := writeRect_frame (copyRect g.matrix (min st.1 en.1)
        (max st.1 en.1) (min st.2 en.2) (max st.2 en.2))
        (blankRect g.matrix (min st.1 en.1) (max st.1 en.1)
          (min st.2 en.2) (max st.2 en.2)) brow bcol r (by omega)
      rw [hb] at hrow
      rw [cellAt_eq hrow (hbf.trans hcell?), cellAt_eq hsrc? hcell?]

/-- C8, witness: on the concrete 4-by-4 grid, dragging the selection
`(0,0)`-`(0,1)` from `(0,0)` and releasing at `(2,2)` yields payload
`"ab"`, blanks the source cells, places `'b'` at `(2,3)`, keeps `(0,1)`
blank, and leaves `(3,3)` unchanged. -/
theorem C8_witness :
    ((gridD.dragStartOp 0 0).modified = true) ∧
    cellAt (gridD.dragStartOp 0 0).drag_content 0 1 = 'b' ∧
    cellAt (gridD.dragStartOp 0 0).matrix 0 0 = ' ' ∧
    cellAt ((gridD.dragStartOp 0 0).dragReleaseOp 2 2).matrix 2 3 = 'b' ∧
    cellAt ((gridD.dragStartOp 0 0).dragReleaseOp 2 2).matrix 0 1 = ' ' ∧
    cellAt ((gridD.dragStartOp 0 0).dragReleaseOp 2 2).matrix 3 3 = 'p' := by
  obtain ⟨h1, h2, h3, h4, h5, h6⟩ := C8_drag_move gridD (0, 0) (0, 1) 0 0 2 2
    rfl (by decide)
    (by intro i hi; rw [Nat.le_zero.mp hi]; decide)
    (by decide) (by decide) (by decide) (by decide)
    (by decide)
    (by intro i hi; rw [Nat.le_zero.mp hi]; decide)
    (by intro r c hr1 hr2 hc1 hc2; omega)
  refine ⟨h1, ?_, ?_, ?_, ?_, ?_⟩
  · rw [h2 0 1 (by decide) (by decide)]
    decide
  · exact h3 0 0 (by decide) (by decide) (by decide) (by decide)
  · have h := h4 0 1 (by decide) (by decide)
    norm_num at h
    rw [h]
    decide
  · exact h5 0 1 (by decide) (by decide) (by decide) (by decide)
  · rw [h6 3 3 (by decide) (by decide) (by decide) (by decide)]
    decide

/-- C10, witness: loading the two-line text `"12 HELLO\nWORLD"` stores
`"HELLO"` (the prefix `"12 "` up to and including the first space is
dropped) and `"WORLD"` (no space, kept in full). -/
theorem C10_witness :
    (MatrixGrid.new
      ['1', '2', ' ', 'H', 'E', 'L', 'L', 'O', '\n',
       'W', 'O', 'R', 'L', 'D']).matrix.get? 0 =
      some ['H', 'E', 'L', 'L', 'O'] ∧
    (MatrixGrid.new
      ['1', '2', ' ', 'H', 'E', 'L', 'L', 'O', '\n',
       'W', 'O', 'R', 'L', 'D']).matrix.get? 1 =
      some ['W', 'O', 'R', 'L', 'D'] := by
  obtain ⟨ha, -⟩ := C10_gutter_strip
    ['1', '2', ' ', 'H', 'E', 'L', 'L', 'O', '\n', 'W', 'O', 'R', 'L', 'D']
    0 (by decide)
  obtain ⟨hb, -⟩ := C10_gutter_strip
    ['1', '2', ' ', 'H', 'E', 'L', 'L', 'O', '\n', 'W', 'O', 'R', 'L', 'D']
    1 (by decide)
  rw [ha, hb]
  exact ⟨by decide, by decide⟩

end Chonker5
